import Mathlib

/-!
Verification of the documentation-generation pipeline of the SFS-Modding-Guide
repository.  The definitions below are a shallow embedding of the TypeScript
sources:

* `src/api-generation/sidecars.ts` — sidecar entries, section ordering,
  snippet resolution and the merge operation;
* `src/components/NamespaceList/index.tsx` — the manifest schema, the
  `resolve*` helpers, the ignore predicates and the `FileStructureGenerator`;
* `src/api-generation/page-generation/utils.ts` and
  `page-type/namespace.ts` — the page-content merger (`addSections`,
  `addSeeAlso`, `getNameFromUid`, `createNamespaceMDX`).

JavaScript strings are Lean `String`s; JS objects indexed by UID are
association lists (`List (String × _)`), with `List.lookup` playing the role
of property access (`obj[uid]`, `undefined` becoming `none`).  Optional JS
fields are `Option`s; JS truthiness of a possibly-absent string (`if (x)`)
is modelled as "present and nonempty".  Thrown exceptions are `Except`
errors.  The recursive file-structure generator is modelled with explicit
fuel; fuel exhaustion is a distinguished error, so unbounded recursion in
the source corresponds to the fuelled model failing at every fuel value.
-/

namespace Sfs

/-! ## Sidecar data model (`src/api-generation/sidecars.ts`) -/

/-- A documentation section: heading, markdown content and an optional
order hint (`SidecarSection` in sidecars.ts). -/
structure SidecarSection where
  heading : String
  content : String
  order : Option Int := none
deriving DecidableEq

/-- Documentation sidecar for one manifest element (`SidecarEntry`). -/
structure SidecarEntry where
  description : Option String := none
  sections : Option (List SidecarSection) := none
  seeAlso : Option (List String) := none
deriving DecidableEq

/-- A sidecar collection: entries indexed by UID plus optional snippets and
templates (`SidecarCollection`).  The optional `metadata` block of the
source is not consulted by any modelled operation and is omitted. -/
structure SidecarCollection where
  version : String := "1.0"
  entries : List (String × SidecarEntry) := []
  snippets : Option (List (String × String)) := none
  templates : Option (List (String × List SidecarSection)) := none

/-- The reserved heading that is always rendered last
(`StandardHeadings.SEE_ALSO`). -/
def seeAlsoHeading : String := "See Also"

/-- Retrieve documentation for a specific UID (`getSidecar`). -/
def getSidecar (collection : SidecarCollection) (uid : String) :
    Option SidecarEntry :=
  List.lookup uid collection.entries

/-- Get a specific section by heading (`getSection`): the first section of
the entry whose heading matches. -/
def getSection (entry : SidecarEntry) (heading : String) :
    Option SidecarSection :=
  match entry.sections with
  | none => none
  | some ss => ss.find? (fun s => s.heading == heading)

/-! The comparator passed to `Array.prototype.sort` in `getSectionsInOrder`:
`a.order - b.order` when both hints exist, hinted entries before unhinted
ones, `0` otherwise.  `hintLe a b` is "the comparator does not put `b`
strictly before `a`", i.e. `compare(a, b) <= 0`.  ES2019 guarantees the
sort is stable, so the result is the unique stable order of this total
preorder; `insertOrdered`/`sortSections` compute exactly that order. -/

/-- Comparator of `getSectionsInOrder` as a boolean total preorder. -/
def hintLe (a b : SidecarSection) : Bool :=
  match a.order, b.order with
  | some x, some y => decide (x ≤ y)
  | some _, none => true
  | none, some _ => false
  | none, none => true

/-- `a` strictly before `b` under the comparator. -/
def hintLt (a b : SidecarSection) : Bool :=
  hintLe a b && ! hintLe b a

/-- Stable insertion into an already sorted list: `x` is placed before the
first element that is not strictly before it, so elements that compare
equal keep their original relative order. -/
def insertOrdered (x : SidecarSection) : List SidecarSection → List SidecarSection
  | [] => [x]
  | y :: ys => if hintLt y x then y :: insertOrdered x ys else x :: y :: ys

/-- Stable sort by the comparator of `getSectionsInOrder`. -/
def sortSections : List SidecarSection → List SidecarSection
  | [] => []
  | x :: xs => insertOrdered x (sortSections xs)

/-- All sections in render order (`getSectionsInOrder`): drop the "See
Also" section, then stably sort by the order-hint comparator. -/
def getSectionsInOrder (entry : SidecarEntry) : List SidecarSection :=
  match entry.sections with
  | none => []
  | some ss => sortSections (ss.filter (fun s => ! (s.heading == seeAlsoHeading)))

/-- Check if an entry has any documentation (`hasDocumentation`); JS
truthiness makes an empty description, section list or see-also list count
as "no documentation". -/
def hasDocumentation (entry : SidecarEntry) : Bool :=
  (match entry.description with
   | some d => ! (d == "")
   | none => false)
  || ! (entry.sections.getD []).isEmpty
  || ! (entry.seeAlso.getD []).isEmpty

/-! ### Snippet resolution (`resolveSnippets`)

The source replaces every occurrence of the pattern
`\x7bsnippet:(\w+)\x7d` (global regex) by the snippet registered under the
captured name, keeping the matched text verbatim when the name is missing
or the snippet is the empty string (`snippets[name] || match`). -/

/-- JS `\w`: ASCII letters, digits and underscore. -/
def isWordChar (c : Char) : Bool :=
  c.isAlphanum || c == '_'

/-- The literal opening of a snippet reference. -/
def snippetOpen : List Char := "\x7bsnippet:".data

/-- The closing brace of a snippet reference. -/
def closeBrace : Char := Char.ofNat 125

/-- Drop an expected literal opening from the head of the input, failing
when the input does not start with it. -/
def dropLiteral : List Char → List Char → Option (List Char)
  | [], s => some s
  | _ :: _, [] => none
  | p :: ps, c :: cs => if c == p then dropLiteral ps cs else none

theorem dropLiteral_eq :
    ∀ {p s t : List Char}, dropLiteral p s = some t → s = p ++ t := by
  intro p
  induction p with
  | nil =>
    intro s t h
    simp only [dropLiteral, Option.some.injEq] at h
    simp [h]
  | cons c cs ih =>
    intro s t h
    cases s with
    | nil => exact absurd h (by simp [dropLiteral])
    | cons d ds =>
      simp only [dropLiteral] at h
      split at h
      · next hdc =>
        rw [List.cons_append, ← ih h, beq_iff_eq.mp hdc]
      · exact absurd h (by simp)

/-- Try to match the snippet regex at the head of `s`: requires the literal
opening, a nonempty run of word characters (greedy, as in the regex) and
the closing brace.  Returns the captured name and the rest of the input. -/
def matchSnippet (s : List Char) : Option (List Char × List Char) :=
  match dropLiteral snippetOpen s with
  | none => none
  | some t =>
    let w := t.takeWhile isWordChar
    if w.isEmpty then none
    else
      match t.dropWhile isWordChar with
      | c :: rest => if c == closeBrace then some (w, rest) else none
      | [] => none

theorem matchSnippet_eq {s w rest} (h : matchSnippet s = some (w, rest)) :
    s = snippetOpen ++ w ++ closeBrace :: rest := by
  unfold matchSnippet at h
  cases hpre : dropLiteral snippetOpen s with
  | none => rw [hpre] at h; exact absurd h (by simp)
  | some t =>
    rw [hpre] at h
    dsimp only at h
    split at h
    · exact absurd h (by simp)
    · next hw =>
      split at h
      · next c rest2 hdrop =>
        split at h
        · next hc =>
          obtain ⟨rfl, rfl⟩ := by simpa using h
          rw [dropLiteral_eq hpre]
          have hsplit := List.takeWhile_append_dropWhile (p := isWordChar) (l := t)
          rw [hdrop] at hsplit
          rw [← beq_iff_eq.mp hc, List.append_assoc, hsplit]
        · exact absurd h (by simp)
      · exact absurd h (by simp)

/-- One pass of the global regex replacement: scan left to right, replace
each match using the lookup (keeping the matched text verbatim when the
lookup misses or returns the empty snippet), and continue after the match
without rescanning the replacement.  The fuel only bounds the number of
scan steps; since every step consumes at least one input character,
starting the scan with `s.length` fuel never exhausts it early. -/
def replaceSnippetsGo (lk : String → Option String) : Nat → List Char → List Char
  | 0, s => s
  | _ + 1, [] => []
  | fuel + 1, c :: cs =>
    match matchSnippet (c :: cs) with
    | some (w, rest) =>
      let matched := snippetOpen ++ w ++ [closeBrace]
      let rep :=
        match lk (String.mk w) with
        | some v => if v == "" then matched else v.data
        | none => matched
      rep ++ replaceSnippetsGo lk fuel rest
    | none => c :: replaceSnippetsGo lk fuel cs

/-- The global replacement over a whole character list. -/
def replaceSnippets (lk : String → Option String) (s : List Char) : List Char :=
  replaceSnippetsGo lk s.length s

/-- Resolve snippet references in markdown content (`resolveSnippets`):
returns the content unchanged when the collection has no snippets table. -/
def resolveSnippets (content : String) (collection : SidecarCollection) :
    String :=
  match collection.snippets with
  | none => content
  | some sn => String.mk (replaceSnippets (fun n => List.lookup n sn) content.data)

/-! ### Merging sidecar entries (`mergeSidecars`) -/

/-- Replace the first section with the same heading, or append
(the body of the `entry.sections` loop in `mergeSidecars`). -/
def upsertSection : List SidecarSection → SidecarSection → List SidecarSection
  | [], s => [s]
  | t :: ts, s =>
    if t.heading == s.heading then s :: ts else t :: upsertSection ts s

/-- Append a see-also reference unless it is already present
(the body of the `entry.seeAlso` loop in `mergeSidecars`). -/
def insertRef (acc : List String) (r : String) : List String :=
  if r ∈ acc then acc else acc ++ [r]

/-- One step of `mergeSidecars`: fold a single entry into the accumulator. -/
def mergeStep (acc : SidecarEntry) (entry : SidecarEntry) : SidecarEntry :=
  { description :=
      match entry.description with
      | some d => if d == "" then acc.description else some d
      | none => acc.description
    sections := some ((entry.sections.getD []).foldl upsertSection (acc.sections.getD []))
    seeAlso := some ((entry.seeAlso.getD []).foldl insertRef (acc.seeAlso.getD [])) }

/-- Merge multiple sidecar entries, later entries overriding earlier ones
(`mergeSidecars`).  The accumulator starts with empty section and see-also
lists and no description, exactly as in the source. -/
def mergeSidecars (entries : List SidecarEntry) : SidecarEntry :=
  entries.foldl mergeStep { description := none, sections := some [], seeAlso := some [] }

/-! ## Manifest model (the `manifest.ts` part of `NamespaceList/index.tsx`)

Only the fields consulted by the modelled operations are carried.  Optional
JS boolean flags (`isCompilerGenerated`, `isStatic`) are `Bool`s defaulting
to `false`, matching their truthiness use. -/

/-- `AttributeData`: only the `attributeType` reference matters to the
ignore predicates. -/
structure AttributeData where
  attributeType : String
deriving DecidableEq

/-- `Namespace` entity of the manifest. -/
structure NamespaceD where
  uid : String
  name : String
  parent : Option String := none
  children : Option (List String) := none
  types : Option (List String) := none
deriving DecidableEq

/-- A type entity (the union `AnyType` flattened: the fields used by the
generator and the ignore predicate). -/
structure TypeD where
  uid : String
  name : String
  typekind : String
  attributes : Option (List String) := none
  isCompilerGenerated : Bool := false
  enclosingType : Option String := none
  nestedTypes : Option (List String) := none
  members : Option (List String) := none
  isStatic : Bool := false
  staticConstructor : Option String := none
deriving DecidableEq

/-- A member entity (the union `AnyMember` flattened). -/
structure MemberD where
  uid : String
  name : String
  memberKind : String
  attributes : Option (List String) := none
  isCompilerGenerated : Bool := false
deriving DecidableEq

/-- `StaticConstructor` entity. -/
structure StaticCtorD where
  uid : String
  attributes : Option (List String) := none
  isCompilerGenerated : Bool := false
deriving DecidableEq

/-- `AssemblyInfo`: only the name is consulted (by `getNameFromUid`). -/
structure AssemblyD where
  uid : String
  name : String
deriving DecidableEq

/-- `ManifestRoot`: flat UID-indexed collections.  JS objects become
association lists; `obj[uid]` becomes `List.lookup`. -/
structure ManifestRoot where
  assemblies : List (String × AssemblyD) := []
  namespaces : List (String × NamespaceD) := []
  types : List (String × TypeD) := []
  members : List (String × MemberD) := []
  attributes : List (String × AttributeData) := []
  staticConstructors : List (String × StaticCtorD) := []

/-- `resolveType`: total lookup, `undefined` on a missing UID. -/
def resolveType (manifest : ManifestRoot) (uid : String) : Option TypeD :=
  List.lookup uid manifest.types

/-- `resolveMember`. -/
def resolveMember (manifest : ManifestRoot) (uid : String) : Option MemberD :=
  List.lookup uid manifest.members

/-- `resolveNamespace`. -/
def resolveNamespace (manifest : ManifestRoot) (uid : String) : Option NamespaceD :=
  List.lookup uid manifest.namespaces

/-- `resolveAssembly`. -/
def resolveAssembly (manifest : ManifestRoot) (uid : String) : Option AssemblyD :=
  List.lookup uid manifest.assemblies

/-- `FSConfiguration` (the `types.ts` fragment bundled in sidecars.ts). -/
structure FSConfiguration where
  ignoreAttributes : List (String × Bool) := []
  globalNamespaceName : String := "Global Namespace"
  outputDir : String
  shouldGenerateSidecars : Bool := true
  sidecarsOutputDir : String
  gameVersion : String := ""
  manifest : ManifestRoot

/-! ## File-structure generator (`FileStructureGenerator` in
`NamespaceList/index.tsx`)

File-system effects are modelled as the ordered list of paths passed to
`fs.mkdirSync` and `fs.writeFileSync`; a path is the list of `path.join`
components, starting with the configured output directory.  File contents
are placeholder template strings in the source and are not inspected by
any claim, so writes are recorded as paths only. -/

/-- The backtick character (used by the generic-arity regex). -/
def backtickChar : Char := Char.ofNat 96

/-- `stripGenericParameters`: remove a trailing backtick-digits suffix
(the regex replaces a match of backtick-digits-at-end with nothing). -/
def stripGenericParameters (name : String) : String :=
  let rev := name.data.reverse
  let ds := rev.takeWhile Char.isDigit
  if ds.isEmpty then name
  else
    match rev.drop ds.length with
    | c :: rest => if c == backtickChar then String.mk rest.reverse else name
    | [] => name

/-- Characters the sanitizer treats as illegal for the file system. -/
def isIllegalFsChar (c : Char) : Bool :=
  c == '<' || c == '>' || c == ':' || c == '"' || c == '/' ||
  c == '\\' || c == '|' || c == '?' || c == '*'

/-- Collapse every maximal run of whitespace into a single dash
(the `\s+` replacement in `sanitizeFileName`); `inRun` records whether the
previous character was part of a whitespace run already replaced. -/
def collapseWhitespaceGo (inRun : Bool) : List Char → List Char
  | [] => []
  | c :: cs =>
    if c.isWhitespace then
      if inRun then collapseWhitespaceGo true cs
      else '-' :: collapseWhitespaceGo true cs
    else c :: collapseWhitespaceGo false cs

/-- Collapse every maximal run of whitespace into a single dash. -/
def collapseWhitespace (l : List Char) : List Char :=
  collapseWhitespaceGo false l

/-- `sanitizeFileName`: strip the generic-arity suffix, replace illegal
characters with dashes, collapse whitespace runs into dashes. -/
def sanitizeFileName (name : String) : String :=
  String.mk (collapseWhitespace
    ((stripGenericParameters name).data.map
      (fun c => if isIllegalFsChar c then '-' else c)))

/-- `shouldIgnoreType`, called with a genuine `FSConfiguration`: ignore
compiler-generated types and types carrying an attribute whose kind is in
the configured ignore list. -/
def shouldIgnoreType (t : TypeD) (config : FSConfiguration) : Bool :=
  t.isCompilerGenerated ||
  (t.attributes.getD []).any (fun attrUid =>
    match List.lookup attrUid config.manifest.attributes with
    | some attr => (List.lookup attr.attributeType config.ignoreAttributes).getD false
    | none => false)

/-- Errors of the modelled generator run. -/
inductive GenError where
  /-- The fuel of the model ran out: the source recursion did not finish
  within the given depth budget. -/
  | fuelOut : GenError
  /-- A JavaScript `TypeError` was thrown. -/
  | typeError : GenError
deriving DecidableEq

/-- `shouldIgnoreType` as called by `generateNestedTypes`, which passes
`this.manifest` where an `FSConfiguration` is expected.  The
compiler-generated check still works, but as soon as the attribute loop
runs its first iteration it evaluates `config.manifest.attributes` with
`config.manifest` being `undefined` and throws a `TypeError`. -/
def shouldIgnoreTypeAsManifest (t : TypeD) : Except GenError Bool :=
  if t.isCompilerGenerated then .ok true
  else
    match t.attributes with
    | some (_ :: _) => .error .typeError
    | _ => .ok false

/-- `shouldIgnoreMember` as called by `groupMembersByKind` and the static
constructor branch, which likewise pass `this.manifest`. -/
def shouldIgnoreMemberAsManifest (cg : Bool) (attrs : Option (List String)) :
    Except GenError Bool :=
  if cg then .ok true
  else
    match attrs with
    | some (_ :: _) => .error .typeError
    | _ => .ok false

/-- A path in the output tree: `path.join` components, the first being the
configured output directory. -/
abbrev GenPath := List String

/-- The member groups built by `groupMembersByKind`. -/
structure MemberGroups where
  constructors : List MemberD := []
  methods : List MemberD := []
  properties : List MemberD := []
  fields : List MemberD := []
  events : List MemberD := []

/-- Push a member into its group following the `memberKind` switch; kinds
outside the switch (operator, conversion, finalizer) are dropped. -/
def pushMember (g : MemberGroups) (m : MemberD) : MemberGroups :=
  if m.memberKind == "constructor" then { g with constructors := g.constructors ++ [m] }
  else if m.memberKind == "method" || m.memberKind == "interface-method" then
    { g with methods := g.methods ++ [m] }
  else if m.memberKind == "property" || m.memberKind == "interface-property" then
    { g with properties := g.properties ++ [m] }
  else if m.memberKind == "field" || m.memberKind == "enum-field" then
    { g with fields := g.fields ++ [m] }
  else if m.memberKind == "event" || m.memberKind == "interface-event" then
    { g with events := g.events ++ [m] }
  else g

/-- `groupMembersByKind`: resolve each member UID (skipping unresolved
ones) and group the survivors; the ignore check is the buggy
`shouldIgnoreMember(member, this.manifest)` call. -/
def groupMembersByKind (manifest : ManifestRoot) :
    MemberGroups → List String → Except GenError MemberGroups
  | g, [] => .ok g
  | g, uid :: rest =>
    match List.lookup uid manifest.members with
    | none => groupMembersByKind manifest g rest
    | some m =>
      match shouldIgnoreMemberAsManifest m.isCompilerGenerated m.attributes with
      | .error e => .error e
      | .ok true => groupMembersByKind manifest g rest
      | .ok false => groupMembersByKind manifest (pushMember g m) rest

/-- `generateConstructors`: a `Constructors` directory, one file per
constructor, fixed name for a single constructor, numbered otherwise. -/
def generateConstructorWrites (typePath : GenPath) (ctors : List MemberD) :
    List GenPath :=
  let ctorPath := typePath ++ ["Constructors"]
  ctorPath ::
    (if ctors.length == 1 then [ctorPath ++ ["Constructor.mdx"]]
     else (List.range ctors.length).map
       (fun i => ctorPath ++ ["Constructor" ++ toString (i + 1) ++ ".mdx"]))

/-- `groupMethodsByName`: group methods under their name, keys in
first-seen order (JS object key insertion order). -/
def groupMethodsByName (methods : List MemberD) : List (String × List MemberD) :=
  methods.foldl
    (fun acc m =>
      if acc.any (fun p => p.1 == m.name) then
        acc.map (fun p => if p.1 == m.name then (p.1, p.2 ++ [m]) else p)
      else acc ++ [(m.name, [m])])
    []

/-- `generateMethods`: a `Methods` directory and one file per distinct
method name. -/
def generateMethodWrites (typePath : GenPath) (methods : List MemberD) :
    List GenPath :=
  (typePath ++ ["Methods"]) ::
    (groupMethodsByName methods).map
      (fun p => typePath ++ ["Methods", sanitizeFileName p.1 ++ ".mdx"])

/-- `generateProperties` / `generateFields` / `generateEvents` share one
shape: a directory and one file per member. -/
def generatePerMemberWrites (typePath : GenPath) (dirName : String)
    (ms : List MemberD) : List GenPath :=
  (typePath ++ [dirName]) ::
    ms.map (fun m => typePath ++ [dirName, sanitizeFileName m.name ++ ".mdx"])

/-- The static-constructor block of `generateType`: resolve the UID and
write a single fixed-name file unless the (buggy) ignore call says
otherwise. -/
def generateStaticCtorWrite (config : FSConfiguration) (t : TypeD)
    (typePath : GenPath) : Except GenError (List GenPath) :=
  match t.staticConstructor with
  | none => .ok []
  | some scUid =>
    match List.lookup scUid config.manifest.staticConstructors with
    | none => .ok []
    | some sc =>
      match shouldIgnoreMemberAsManifest sc.isCompilerGenerated sc.attributes with
      | .error e => .error e
      | .ok true => .ok []
      | .ok false => .ok [typePath ++ ["static-constructor.mdx"]]

/-- The member-processing block of `generateType` for classes, structs
and interfaces: group the members (through the buggy ignore call), then
emit constructor, static-constructor, method, property, field and event
writes in source order. -/
def generateTypeMembers (config : FSConfiguration) (t : TypeD)
    (typePath : GenPath) : Except GenError (List GenPath) :=
  match t.members with
  | none => .ok []
  | some ms =>
    match groupMembersByKind config.manifest {} ms with
    | .error e => .error e
    | .ok g =>
      match generateStaticCtorWrite config t typePath with
      | .error e => .error e
      | .ok scWrites =>
        let ctorW :=
          if ! g.constructors.isEmpty && ! t.isStatic then
            generateConstructorWrites typePath g.constructors
          else []
        let methodW :=
          if ! g.methods.isEmpty then generateMethodWrites typePath g.methods else []
        let propW :=
          if ! g.properties.isEmpty then
            generatePerMemberWrites typePath "Properties" g.properties
          else []
        let fieldW :=
          if ! g.fields.isEmpty then
            generatePerMemberWrites typePath "Fields" g.fields
          else []
        let eventW :=
          if ! g.events.isEmpty then
            generatePerMemberWrites typePath "Events" g.events
          else []
        .ok (ctorW ++ scWrites ++ methodW ++ propW ++ fieldW ++ eventW)

mutual

/-- `generateType`: delegates get a single file; enums a folder, index and
a `Fields` subtree; classes, structs and interfaces a folder, index,
member subfolders and nested types.  In the source's enum branch
`generateFields` receives the raw UID strings of `type.members`, so for a
nonempty member list `field.name` is `undefined` and `sanitizeFileName`
throws a `TypeError`.  Fuel decreases on every call; `fuelOut` stands for
a recursion that exceeds the budget. -/
def generateType (config : FSConfiguration) :
    Nat → TypeD → GenPath → Except GenError (List GenPath)
  | 0, _, _ => .error .fuelOut
  | Nat.succ fuel, t, parentPath =>
    let typeName := sanitizeFileName t.name
    let typePath := parentPath ++ [typeName]
    if t.typekind == "delegate" then
      .ok [parentPath ++ [typeName ++ ".mdx"]]
    else if t.typekind == "enum" then
      match t.members with
      | none => .ok [typePath, typePath ++ ["index.mdx"]]
      | some [] => .ok [typePath, typePath ++ ["index.mdx"], typePath ++ ["Fields"]]
      | some (_ :: _) => .error .typeError
    else
      match generateTypeMembers config t typePath with
      | .error e => .error e
      | .ok mw =>
        match t.nestedTypes with
        | none => .ok ([typePath, typePath ++ ["index.mdx"]] ++ mw)
        | some [] => .ok ([typePath, typePath ++ ["index.mdx"]] ++ mw)
        | some nts =>
          let nestedPath := typePath ++ ["Nested-Types"]
          match generateNestedTypes config fuel nts nestedPath with
          | .error e => .error e
          | .ok nw =>
            .ok ([typePath, typePath ++ ["index.mdx"]] ++ mw ++ (nestedPath :: nw))

/-- `generateNestedTypes` loop body: resolve each nested UID, keep it when
the buggy `shouldIgnoreType(nestedType, this.manifest)` call says to, and
recurse via `generateType`. -/
def generateNestedTypes (config : FSConfiguration) :
    Nat → List String → GenPath → Except GenError (List GenPath)
  | 0, _, _ => .error .fuelOut
  | Nat.succ _, [], _ => .ok []
  | Nat.succ fuel, uid :: rest, nestedPath =>
    match List.lookup uid config.manifest.types with
    | none => generateNestedTypes config fuel rest nestedPath
    | some nt =>
      match shouldIgnoreTypeAsManifest nt with
      | .error e => .error e
      | .ok true => generateNestedTypes config fuel rest nestedPath
      | .ok false =>
        match generateType config fuel nt nestedPath with
        | .error e => .error e
        | .ok w =>
          match generateNestedTypes config fuel rest nestedPath with
          | .error e => .error e
          | .ok ws => .ok (w ++ ws)

end

/-- The loop over `namespace.types` in `generateNamespace` (and, reading
the syntactically malformed `this.` of line 319 as `this.config`, in
`generateGlobalNamespace`): resolve the UID, skip unresolved, ignored and
nested types, generate the rest in order. -/
def generateNamespaceTypes (config : FSConfiguration) (fuel : Nat) :
    List String → GenPath → Except GenError (List GenPath)
  | [], _ => .ok []
  | uid :: rest, typesPath =>
    match List.lookup uid config.manifest.types with
    | none => generateNamespaceTypes config fuel rest typesPath
    | some t =>
      if ! shouldIgnoreType t config && t.enclosingType == none then
        match generateType config fuel t typesPath with
        | .error e => .error e
        | .ok w =>
          match generateNamespaceTypes config fuel rest typesPath with
          | .error e => .error e
          | .ok ws => .ok (w ++ ws)
      else generateNamespaceTypes config fuel rest typesPath

mutual

/-- `generateNamespace`: namespace folder and index file, a `Namespaces`
subtree recursing into resolvable children, a `Types` subtree for the
namespace's types.  There is no cycle guard: recursion is bounded only by
the fuel of the model. -/
def generateNamespace (config : FSConfiguration) :
    Nat → NamespaceD → GenPath → Except GenError (List GenPath)
  | 0, _, _ => .error .fuelOut
  | Nat.succ fuel, ns, parentPath =>
    let nsPath := parentPath ++ [sanitizeFileName ns.name]
    let childW : Except GenError (List GenPath) :=
      match ns.children with
      | none => .ok []
      | some [] => .ok []
      | some cs =>
        match generateChildNamespaces config fuel cs (nsPath ++ ["Namespaces"]) with
        | .error e => .error e
        | .ok ws => .ok ((nsPath ++ ["Namespaces"]) :: ws)
    match childW with
    | .error e => .error e
    | .ok cw =>
      let typeW : Except GenError (List GenPath) :=
        match ns.types with
        | none => .ok []
        | some [] => .ok []
        | some ts =>
          match generateNamespaceTypes config fuel ts (nsPath ++ ["Types"]) with
          | .error e => .error e
          | .ok ws => .ok ((nsPath ++ ["Types"]) :: ws)
      match typeW with
      | .error e => .error e
      | .ok tw => .ok ([nsPath, nsPath ++ ["index.mdx"]] ++ cw ++ tw)

/-- The loop over `namespace.children`: resolve each child UID and recurse
into `generateNamespace`, skipping unresolved children. -/
def generateChildNamespaces (config : FSConfiguration) :
    Nat → List String → GenPath → Except GenError (List GenPath)
  | 0, _, _ => .error .fuelOut
  | Nat.succ _, [], _ => .ok []
  | Nat.succ fuel, uid :: rest, namespacesPath =>
    match List.lookup uid config.manifest.namespaces with
    | none => generateChildNamespaces config fuel rest namespacesPath
    | some child =>
      match generateNamespace config fuel child namespacesPath with
      | .error e => .error e
      | .ok w =>
        match generateChildNamespaces config fuel rest namespacesPath with
        | .error e => .error e
        | .ok ws => .ok (w ++ ws)

end

/-- `generateGlobalNamespace`: return immediately when the global
namespace has no types at all; otherwise create the `Global Namespace`
folder, its index file and its `Types` subtree. -/
def generateGlobalNamespace (config : FSConfiguration) (fuel : Nat)
    (ns : NamespaceD) : Except GenError (List GenPath) :=
  match ns.types with
  | none => .ok []
  | some [] => .ok []
  | some ts =>
    let globalPath : GenPath := [config.outputDir, "Global Namespace"]
    match generateNamespaceTypes config fuel ts (globalPath ++ ["Types"]) with
    | .error e => .error e
    | .ok tw =>
      .ok ([globalPath, globalPath ++ ["index.mdx"], globalPath ++ ["Types"]] ++ tw)

/-- The loop of `generate` over `Object.entries(this.manifest.namespaces)`:
the entry keyed `ns:<global>` goes through `generateGlobalNamespace`,
entries whose parent is the global namespace are generated as root
namespaces, all others are skipped here. -/
def generateTopLevel (config : FSConfiguration) (fuel : Nat) :
    List (String × NamespaceD) → Except GenError (List GenPath)
  | [] => .ok []
  | (uid, ns) :: rest =>
    let here : Except GenError (List GenPath) :=
      if uid == "ns:<global>" then generateGlobalNamespace config fuel ns
      else if ns.parent == some "ns:<global>" then
        generateNamespace config fuel ns [config.outputDir]
      else .ok []
    match here with
    | .error e => .error e
    | .ok w =>
      match generateTopLevel config fuel rest with
      | .error e => .error e
      | .ok ws => .ok (w ++ ws)

/-- `FileStructureGenerator.generate`: ensure the target directory and
process every namespace entry. -/
def generate (config : FSConfiguration) (fuel : Nat) :
    Except GenError (List GenPath) :=
  match generateTopLevel config fuel config.manifest.namespaces with
  | .error e => .error e
  | .ok ws => .ok ([config.outputDir] :: ws)

/-! ## Page content merger (`page-generation/utils.ts` and
`page-type/namespace.ts`)

The external MDX builder (`mdx-builder`) is not part of the repository; a
built document is modelled as the ordered list of builder operations.
Modelled from the spec: `mdx.link` and `mdx.list` produce a standard
markdown link and bulleted list, `mdx.makeTable` a pipe table. -/

/-- One operation applied to the external markdown builder. -/
inductive Block where
  | frontMatter (key value : String) : Block
  | heading (text : String) (level : Nat) : Block
  | text (s : String) : Block
deriving DecidableEq

/-- Modelled from the spec: the external `mdx.link` helper, a markdown
link with a display name and an address. -/
def mdxLink (name slug : String) : String :=
  "[" ++ name ++ "](" ++ slug ++ ")"

/-- Modelled from the spec: the external `mdx.list` helper, an unordered
markdown list. -/
def mdxList (items : List String) : String :=
  String.intercalate "\n" (items.map (fun i => "- " ++ i))

/-- Modelled from the spec: the external `mdx.makeTable` helper, a
two-row-header pipe table. -/
def mdxMakeTable (headings : List String) (rows : List (List String)) : String :=
  String.intercalate "\n"
    (("| " ++ String.intercalate " | " headings ++ " |") ::
     ("| " ++ String.intercalate " | " (headings.map (fun _ => "---")) ++ " |") ::
     rows.map (fun r => "| " ++ String.intercalate " | " r ++ " |"))

/-- JS `String.prototype.split` with a single-character separator:
`"".split(sep)` is `[""]`, separators at the ends produce empty parts. -/
def splitChar (sep : Char) : List Char → List (List Char)
  | [] => [[]]
  | c :: cs =>
    if c == sep then [] :: splitChar sep cs
    else
      match splitChar sep cs with
      | [] => [[c]]
      | p :: ps => (c :: p) :: ps

/-- `uid.split(":")`. -/
def uidSplit (uid : String) : List String :=
  (splitChar ':' uid.data).map String.mk

/-- The fallback of `getNameFromUid`: `uid.split(":")[1] || uid`. -/
def uidFallbackName (uid : String) : String :=
  match (uidSplit uid).get? 1 with
  | some p => if p == "" then uid else p
  | none => uid

/-- `getNameFromUid`: try the manifest collections in order, then fall
back to the text after the first colon of the UID, or the whole UID when
that text is empty or missing. -/
def getNameFromUid (uid : String) (manifest : ManifestRoot) : String :=
  match List.lookup uid manifest.types with
  | some t => t.name
  | none =>
    match List.lookup uid manifest.members with
    | some m => m.name
    | none =>
      match List.lookup uid manifest.namespaces with
      | some ns => ns.name
      | none =>
        match List.lookup uid manifest.assemblies with
        | some a => a.name
        | none => uidFallbackName uid

/-- `addDescription`: append the sidecar description when it is present
and nonempty. -/
def addDescription (builder : List Block) (uid : String)
    (sidecars : SidecarCollection) : List Block :=
  match List.lookup uid sidecars.entries with
  | none => builder
  | some e =>
    match e.description with
    | none => builder
    | some d => if d == "" then builder else builder ++ [Block.text d]

/-- The blocks `addSections` emits: one level-2 heading and one text block
per section, in the order of `getSectionsInOrder`. -/
def sectionBlocks (uid : String) (sidecars : SidecarCollection) : List Block :=
  match List.lookup uid sidecars.entries with
  | none => []
  | some e =>
    match e.sections with
    | none => []
    | some _ =>
      (getSectionsInOrder e).flatMap
        (fun s => [Block.heading s.heading 2, Block.text s.content])

/-- `addSections`: append every non-"See Also" section in render order. -/
def addSections (builder : List Block) (uid : String)
    (sidecars : SidecarCollection) : List Block :=
  builder ++ sectionBlocks uid sidecars

/-- The blocks `addSeeAlso` emits: nothing without a nonempty see-also
list, otherwise a "See Also" heading and a bulleted list of links whose
names come from `getNameFromUid`. -/
def seeAlsoBlocks (uid : String) (sidecars : SidecarCollection)
    (manifest : ManifestRoot) (uidToSlugFn : String → String) : List Block :=
  match List.lookup uid sidecars.entries with
  | none => []
  | some e =>
    match e.seeAlso with
    | none => []
    | some [] => []
    | some refs =>
      [Block.heading "See Also" 2,
       Block.text (mdxList (refs.map
         (fun refUid => mdxLink (getNameFromUid refUid manifest) (uidToSlugFn refUid))))]

/-- `addSeeAlso`: append the see-also section. -/
def addSeeAlso (builder : List Block) (uid : String)
    (sidecars : SidecarCollection) (manifest : ManifestRoot)
    (uidToSlugFn : String → String) : List Block :=
  builder ++ seeAlsoBlocks uid sidecars manifest uidToSlugFn

/-- `hasSidecar`: a sidecar exists and has content. -/
def hasSidecar (uid : String) (sidecars : SidecarCollection) : Bool :=
  match List.lookup uid sidecars.entries with
  | none => false
  | some e => hasDocumentation e

/-- `getInlineDescription`: the sidecar description or the empty string. -/
def getInlineDescription (uid : String) (sidecars : SidecarCollection) : String :=
  match List.lookup uid sidecars.entries with
  | none => ""
  | some e =>
    match e.description with
    | none => ""
    | some d => d

/-- `getTypesTable`: for a `ns:`-prefixed UID the namespace's types, for a
`type:`-prefixed UID its nested types, an error message when the entity is
not in the manifest, an empty-rowed table for any other prefix; rows link
resolvable types with their inline descriptions. -/
def getTypesTable (uid : String) (manifest : ManifestRoot)
    (sidecars : SidecarCollection) (uidToSlugFn : String → String) : String :=
  let docType := ((uidSplit uid).get? 0).getD ""
  let typesRes : Except String (List String) :=
    if docType == "ns" then
      match List.lookup uid manifest.namespaces with
      | some ns => .ok (ns.types.getD [])
      | none => .error "The namespace could not be found in the manifest."
    else if docType == "type" then
      match List.lookup uid manifest.types with
      | some t => .ok (t.nestedTypes.getD [])
      | none => .error "The type could not be found in the manifest."
    else .ok []
  match typesRes with
  | .error msg => msg
  | .ok types =>
    mdxMakeTable ["Type", "Description"]
      ((types.filterMap (fun typeUid => List.lookup typeUid manifest.types)).map
        (fun t => [mdxLink t.name (uidToSlugFn t.uid),
                   getInlineDescription t.uid sidecars]))

/-- `getNestedNamespacesTable`: rows for each resolvable child namespace,
an error message when the namespace is missing or has no children field. -/
def getNestedNamespacesTable (uid : String) (manifest : ManifestRoot)
    (sidecars : SidecarCollection) (uidToSlugFn : String → String) : String :=
  match List.lookup uid manifest.namespaces with
  | none => "The namespace could not be found in the manifest."
  | some ns =>
    match ns.children with
    | none => "The namespace could not be found in the manifest."
    | some cs =>
      mdxMakeTable ["Namespace", "Description"]
        ((cs.filterMap (fun nsUid => List.lookup nsUid manifest.namespaces)).map
          (fun c => [mdxLink c.name (uidToSlugFn c.uid),
                     getInlineDescription c.uid sidecars]))

/-- The document built by `createNamespaceMDX` once the existence check
has passed: front matter, optional overview, the types section, the
optional nested-namespaces section, the remaining sidecar sections and,
always last, the see-also section. -/
def namespaceBlocks (config : FSConfiguration) (ns : NamespaceD)
    (sidecars : SidecarCollection) (uidToSlugFn : String → String) : List Block :=
  let manifest := config.manifest
  let hasTypes := ! (ns.types.getD []).isEmpty
  let hasNestedNamespaces := ! (ns.children.getD []).isEmpty
  let descFM :=
    let d := getInlineDescription ns.uid sidecars
    if d == "" then "Documentation for the " ++ ns.name ++ " namespace." else d
  let front :=
    [Block.frontMatter "title" (ns.name ++ " Namespace"),
     Block.frontMatter "description" descFM,
     Block.frontMatter "slug" (uidToSlugFn ns.uid),
     Block.frontMatter "sidebar_label" ns.name]
  let overview :=
    if hasSidecar ns.uid sidecars then
      addDescription [Block.heading "Overview" 2] ns.uid sidecars
    else []
  let typesSection :=
    [Block.heading "Types" 2,
     Block.text (if hasTypes then getTypesTable ns.uid manifest sidecars uidToSlugFn
                 else "This namespace does not contain any types.")]
  let nestedSection :=
    if hasNestedNamespaces then
      [Block.heading "Nested Namespaces" 2,
       Block.text (getNestedNamespacesTable ns.uid manifest sidecars uidToSlugFn)]
    else []
  front ++ overview ++ typesSection ++ nestedSection
    ++ sectionBlocks ns.uid sidecars
    ++ seeAlsoBlocks ns.uid sidecars manifest uidToSlugFn

/-- `createNamespaceMDX`: throws an `Error` when the namespace UID does
not exist in the manifest, otherwise builds the namespace page. -/
def createNamespaceMDX (config : FSConfiguration) (ns : NamespaceD)
    (sidecars : SidecarCollection) (uidToSlugFn : String → String) :
    Except String (List Block) :=
  match List.lookup ns.uid config.manifest.namespaces with
  | none =>
    .error ("Namespace with UID " ++ ns.uid ++ " does not exist in the manifest.")
  | some _ => .ok (namespaceBlocks config ns sidecars uidToSlugFn)

/-! ## Specification-side definitions

These follow the words of the specification, to be compared with the
definitions embedded from the source. -/

/-- The description an entry contributes to a merge: present iff nonempty. -/
def descOf (e : SidecarEntry) : Option String :=
  match e.description with
  | some d => if d == "" then none else some d
  | none => none

/-- The last non-empty description among a list of entries, absent if none
(the specification's description of the merge result). -/
def lastNonEmptyDescription : List SidecarEntry → Option String
  | [] => none
  | e :: es =>
    match lastNonEmptyDescription es with
    | some d => some d
    | none => descOf e

/-- How many sections of a list carry a given heading. -/
def headingCount (h : String) (ss : List SidecarSection) : Nat :=
  ss.countP (fun s => s.heading == h)

/-- Union preserving first-seen order with duplicates removed, relative to
an already-seen set (the specification's description of the see-also
merge). -/
def firstSeenDedupGo (seen : List String) : List String → List String
  | [] => []
  | x :: xs =>
    if x ∈ seen then firstSeenDedupGo seen xs
    else x :: firstSeenDedupGo (seen ++ [x]) xs

/-- Union preserving first-seen order with duplicates removed. -/
def firstSeenDedup (l : List String) : List String :=
  firstSeenDedupGo [] l

/-- Modelled from the spec: the sidecar skeleton writer is not part of the
sources under src (only the `shouldGenerateSidecars` and
`sidecarsOutputDir` configuration fields exist); per the skeleton policy
it writes one empty skeleton for every addressable UID lacking a sidecar
and touches nothing else.  `existing` is the set of UIDs that already have
a sidecar file; the result is the list of UIDs whose skeleton is written. -/
def sidecarSkeletonWrites (existing addressable : List String) : List String :=
  firstSeenDedupGo existing addressable

/-! ## Merge lemmas (claims C3 and C4) -/

/-- Description component of one merge step. -/
def descStep (a : Option String) (e : SidecarEntry) : Option String :=
  match e.description with
  | some d => if d == "" then a else some d
  | none => a

theorem mergeStep_description (acc e) :
    (mergeStep acc e).description = descStep acc.description e := rfl

theorem foldl_mergeStep_description (es : List SidecarEntry) :
    ∀ acc, (es.foldl mergeStep acc).description = es.foldl descStep acc.description := by
  induction es with
  | nil => intro acc; rfl
  | cons e es ih =>
    intro acc
    simp only [List.foldl_cons, ih, mergeStep_description]

theorem foldl_descStep (es : List SidecarEntry) :
    ∀ a, es.foldl descStep a =
      match lastNonEmptyDescription es with
      | some d => some d
      | none => a := by
  induction es with
  | nil => intro a; rfl
  | cons e es ih =>
    intro a
    simp only [List.foldl_cons, ih, lastNonEmptyDescription]
    cases lastNonEmptyDescription es with
    | some d => rfl
    | none =>
      simp only [descStep, descOf]
      cases e.description with
      | none => rfl
      | some d =>
        by_cases hd : d == ""
        · simp [hd]
        · simp [hd]

theorem upsertSection_count_ne {s : SidecarSection} {h : String}
    (hne : ¬ s.heading = h) (ts : List SidecarSection) :
    headingCount h (upsertSection ts s) = headingCount h ts := by
  induction ts with
  | nil =>
    simp [upsertSection, headingCount, List.countP_cons, hne]
  | cons t ts ih =>
    simp only [upsertSection]
    by_cases hts : t.heading == s.heading
    · have ht : ¬ t.heading = h := by
        intro hh
        exact hne ((beq_iff_eq.mp hts ▸ hh : s.heading = h))
      simp [headingCount, List.countP_cons, hne, ht, hts]
    · simp [headingCount, List.countP_cons, hts, headingCount] at ih ⊢
      omega

theorem upsertSection_count_eq {s : SidecarSection} {h : String}
    (heq : s.heading = h) (ts : List SidecarSection) :
    headingCount h (upsertSection ts s) = max 1 (headingCount h ts) := by
  induction ts with
  | nil => simp [upsertSection, headingCount, List.countP_cons, heq]
  | cons t ts ih =>
    simp only [upsertSection]
    by_cases hts : t.heading == s.heading
    · have ht : t.heading = h := beq_iff_eq.mp hts ▸ heq
      simp [headingCount, List.countP_cons, heq, ht]
    · have ht : ¬ t.heading = h := by
        intro hh
        exact hts (beq_iff_eq.mpr (hh.trans heq.symm))
      simp [headingCount, List.countP_cons, hts, ht] at ih ⊢
      omega

theorem upsertSection_count_le {s : SidecarSection} {h : String}
    {ts : List SidecarSection} (hts : headingCount h ts ≤ 1) :
    headingCount h (upsertSection ts s) ≤ 1 := by
  by_cases hs : s.heading = h
  · rw [upsertSection_count_eq hs]
    omega
  · rw [upsertSection_count_ne hs]
    exact hts

theorem foldl_upsertSection_count_le {h : String} (ss : List SidecarSection) :
    ∀ acc, headingCount h acc ≤ 1 → headingCount h (ss.foldl upsertSection acc) ≤ 1 := by
  induction ss with
  | nil => intro acc hacc; exact hacc
  | cons s ss ih =>
    intro acc hacc
    exact ih _ (upsertSection_count_le hacc)

/-- Sections component of the merge fold. -/
def sectionsStep (l : List SidecarSection) (e : SidecarEntry) : List SidecarSection :=
  (e.sections.getD []).foldl upsertSection l

theorem foldl_mergeStep_sections (es : List SidecarEntry)  :
    ∀ acc l, acc.sections = some l →
      (es.foldl mergeStep acc).sections = some (es.foldl sectionsStep l) := by
  induction es with
  | nil => intro acc l hl; simpa using hl
  | cons e es ih =>
    intro acc l hl
    simp only [List.foldl_cons]
    refine ih _ _ ?_
    simp [mergeStep, sectionsStep, hl]

/-- See-also component of the merge fold. -/
def seeAlsoStep (l : List String) (e : SidecarEntry) : List String :=
  (e.seeAlso.getD []).foldl insertRef l

theorem foldl_mergeStep_seeAlso (es : List SidecarEntry) :
    ∀ acc l, acc.seeAlso = some l →
      (es.foldl mergeStep acc).seeAlso = some (es.foldl seeAlsoStep l) := by
  induction es with
  | nil => intro acc l hl; simpa using hl
  | cons e es ih =>
    intro acc l hl
    simp only [List.foldl_cons]
    refine ih _ _ ?_
    simp [mergeStep, seeAlsoStep, hl]

theorem foldl_seeAlsoStep_flatMap (es : List SidecarEntry) :
    ∀ l, es.foldl seeAlsoStep l =
      (es.flatMap (fun e => e.seeAlso.getD [])).foldl insertRef l := by
  induction es with
  | nil => intro l; rfl
  | cons e es ih =>
    intro l
    simp only [List.foldl_cons, List.flatMap_cons, List.foldl_append, ih, seeAlsoStep]

theorem foldl_insertRef_eq (l : List String) :
    ∀ acc, l.foldl insertRef acc = acc ++ firstSeenDedupGo acc l := by
  induction l with
  | nil => intro acc; simp [firstSeenDedupGo]
  | cons x xs ih =>
    intro acc
    by_cases hx : x ∈ acc
    · simp [insertRef, hx, firstSeenDedupGo, ih]
    · simp only [List.foldl_cons, insertRef, if_neg hx, firstSeenDedupGo, if_neg hx, ih]
      simp

/-- Claim C3 — The merged description is the last non-empty description
among the inputs (absent when there is none); a heading occurs at most
once among the merged sections because a repeated heading replaces the
earlier section in place; and merging two entries that both declare a
"Remarks" section yields exactly one "Remarks" section holding the more
specific entry's content, while a new heading is appended after it. -/
theorem claim_C3 :
    (∀ es : List SidecarEntry,
      (mergeSidecars es).description = lastNonEmptyDescription es) ∧
    (∀ (es : List SidecarEntry) (h : String),
      headingCount h ((mergeSidecars es).sections.getD []) ≤ 1) ∧
    mergeSidecars
      [{ description := some "a",
         sections := some [{ heading := "Remarks", content := "old remarks" }] },
       { description := some "b",
         sections := some [{ heading := "Remarks", content := "new remarks" },
                           { heading := "Examples", content := "example text" }] }] =
      { description := some "b",
        sections := some [{ heading := "Remarks", content := "new remarks" },
                          { heading := "Examples", content := "example text" }],
        seeAlso := some [] } := by
  refine ⟨?_, ?_, ?_⟩
  · intro es
    unfold mergeSidecars
    rw [foldl_mergeStep_description, foldl_descStep]
    cases lastNonEmptyDescription es <;> rfl
  · intro es h
    unfold mergeSidecars
    rw [foldl_mergeStep_sections es _ [] rfl]
    simp only [Option.getD_some]
    have : ∀ (es : List SidecarEntry) (acc : List SidecarSection),
        headingCount h acc ≤ 1 → headingCount h (es.foldl sectionsStep acc) ≤ 1 := by
      intro es
      induction es with
      | nil => intro acc hacc; exact hacc
      | cons e es ih =>
        intro acc hacc
        exact ih _ (foldl_upsertSection_count_le _ _ hacc)
    exact this es [] (by simp [headingCount])
  · rfl

/-- Claim C4 — The merged see-also list is the union of the inputs' lists
in first-seen order with duplicates removed; in particular `[x, y]`
merged with `[y, z]` gives `[x, y, z]`. -/
theorem claim_C4 :
    (∀ es : List SidecarEntry,
      (mergeSidecars es).seeAlso =
        some (firstSeenDedup (es.flatMap (fun e => e.seeAlso.getD [])))) ∧
    (mergeSidecars
      [{ seeAlso := some ["x", "y"] }, { seeAlso := some ["y", "z"] }]).seeAlso =
      some ["x", "y", "z"] := by
  constructor
  · intro es
    unfold mergeSidecars
    rw [foldl_mergeStep_seeAlso es _ [] rfl, foldl_seeAlsoStep_flatMap,
      foldl_insertRef_eq]
    simp [firstSeenDedup]
  · rfl

/-! ## Snippet lemmas (claim C10) -/

theorem replaceSnippetsGo_id (lk : String → Option String)
    (hlk : ∀ n v, lk n = some v → v = "") :
    ∀ fuel s, replaceSnippetsGo lk fuel s = s := by
  intro fuel
  induction fuel with
  | zero => intro s; rfl
  | succ f ih =>
    intro s
    cases s with
    | nil => rfl
    | cons c cs =>
      simp only [replaceSnippetsGo]
      cases hm : matchSnippet (c :: cs) with
      | none => simp [ih]
      | some p =>
        obtain ⟨w, rest⟩ := p
        have hdec := matchSnippet_eq hm
        dsimp only
        cases hv : lk (String.mk w) with
        | none =>
          dsimp only
          rw [ih]
          conv_rhs => rw [hdec]
          simp
        | some v =>
          have hve : v = "" := hlk _ _ hv
          subst hve
          dsimp only
          rw [if_pos (by rfl), ih]
          conv_rhs => rw [hdec]
          simp

/-- Claim C10 — `resolveSnippets` is the identity when the collection has
no snippets table, is the identity whenever every registered snippet is
empty (so in particular every occurrence whose name is not a key, or maps
to an empty snippet, stays verbatim), and substitutes exactly the
occurrences whose name maps to a nonempty snippet, as in the concrete
mixed example. -/
theorem claim_C10 :
    (∀ (content : String) (ver : String) (ent : List (String × SidecarEntry))
        (tpl : Option (List (String × List SidecarSection))),
      resolveSnippets content
        { version := ver, entries := ent, snippets := none, templates := tpl } =
        content) ∧
    (∀ (content : String) (ver : String) (ent : List (String × SidecarEntry))
        (sn : List (String × String))
        (tpl : Option (List (String × List SidecarSection))),
      (∀ n v, List.lookup n sn = some v → v = "") →
      resolveSnippets content
        { version := ver, entries := ent, snippets := some sn, templates := tpl } =
        content) ∧
    resolveSnippets "A \x7bsnippet:good\x7d B \x7bsnippet:bad\x7d C"
      { snippets := some [("good", "G")] } = "A G B \x7bsnippet:bad\x7d C" := by
  refine ⟨fun content ver ent tpl => rfl, ?_, by rfl⟩
  intro content ver ent sn tpl hsn
  simp only [resolveSnippets, replaceSnippets]
  rw [replaceSnippetsGo_id _ hsn]

/-- Witness for claim C10 at a concrete input: a collection whose only
snippet is empty leaves a reference to it verbatim. -/
theorem witness_C10 :
    resolveSnippets "Q \x7bsnippet:e\x7d"
      { version := "1", entries := [], snippets := some [("e", "")],
        templates := none } = "Q \x7bsnippet:e\x7d" := by
  refine claim_C10.2.1 "Q \x7bsnippet:e\x7d" "1" [] [("e", "")] none ?_
  intro n v hv
  simp only [List.lookup] at hv
  by_cases hn : n == "e"
  · rw [hn] at hv
    simp at hv
    exact hv.symm
  · rw [Bool.not_eq_true] at hn
    rw [hn] at hv
    exact absurd hv (by simp)

/-! ## Resolution claims (C1) -/

/-- Counterexample to claim C1 — generating the namespace page for a
namespace whose UID is absent from the manifest does not complete: the
source throws an `Error` naming the UID. -/
theorem counterexample_C1 :
    createNamespaceMDX
      { outputDir := "docs", sidecarsOutputDir := "sidecars", manifest := {} }
      { uid := "ns:Foo", name := "Foo" } {} (fun u => u) =
      .error "Namespace with UID ns:Foo does not exist in the manifest." := rfl

/-- Claim C1 as amended — the `resolve*` helpers are total functions that
return exactly the entity registered under the UID, or `undefined`; but
not every caller treats an unresolved UID as a normal outcome:
`createNamespaceMDX` throws precisely when the namespace's UID is absent
from the manifest, instead of rendering a placeholder and continuing. -/
theorem claim_C1 :
    (∀ (config : FSConfiguration) (ns : NamespaceD)
        (sidecars : SidecarCollection) (slugFn : String → String),
      (∃ msg, createNamespaceMDX config ns sidecars slugFn = .error msg) ↔
        List.lookup ns.uid config.manifest.namespaces = none) ∧
    (∀ (manifest : ManifestRoot) (uid : String),
      resolveNamespace manifest uid = List.lookup uid manifest.namespaces) ∧
    (∀ (manifest : ManifestRoot) (uid : String),
      resolveType manifest uid = List.lookup uid manifest.types) ∧
    (∀ (manifest : ManifestRoot) (uid : String),
      resolveMember manifest uid = List.lookup uid manifest.members) ∧
    (∀ (manifest : ManifestRoot) (uid : String),
      resolveAssembly manifest uid = List.lookup uid manifest.assemblies) := by
  refine ⟨?_, fun m u => rfl, fun m u => rfl, fun m u => rfl, fun m u => rfl⟩
  intro config ns sidecars slugFn
  unfold createNamespaceMDX
  cases h : List.lookup ns.uid config.manifest.namespaces with
  | none => simp
  | some nsEntry => simp

/-! ## See-also rendering claims (C8) -/

/-- Counterexample to claim C8 — a "See Also" reference to a UID absent
from every manifest collection is rendered as an ordinary markdown link
whose display name is extracted from the UID text: no diagnostic marker
ever appears in the output. -/
theorem counterexample_C8 :
    addSeeAlso [] "ns:X"
      { entries := [("ns:X", { seeAlso := some ["type:Missing"] })] } {}
      (fun u => "/" ++ u) =
      [Block.heading "See Also" 2, Block.text "- [Missing](/type:Missing)"] := rfl

/-- Claim C8 as amended — rendering the "See Also" section always
completes: every reference becomes a link, and for a UID that resolves in
no manifest collection the display name falls back to the UID text after
its first colon (or the whole UID), still rendered as a link rather than
a diagnostic marker. -/
theorem claim_C8 :
    (∀ (builder : List Block) (uid : String) (sidecars : SidecarCollection)
        (manifest : ManifestRoot) (slugFn : String → String)
        (e : SidecarEntry) (refs : List String),
      List.lookup uid sidecars.entries = some e →
      e.seeAlso = some refs →
      refs ≠ [] →
      addSeeAlso builder uid sidecars manifest slugFn =
        builder ++ [Block.heading "See Also" 2,
          Block.text (mdxList (refs.map
            (fun refUid => mdxLink (getNameFromUid refUid manifest) (slugFn refUid))))]) ∧
    (∀ (uid : String) (manifest : ManifestRoot),
      List.lookup uid manifest.types = none →
      List.lookup uid manifest.members = none →
      List.lookup uid manifest.namespaces = none →
      List.lookup uid manifest.assemblies = none →
      getNameFromUid uid manifest = uidFallbackName uid) := by
  constructor
  · intro builder uid sidecars manifest slugFn e refs he hsa hne
    unfold addSeeAlso seeAlsoBlocks
    rw [he]
    dsimp only
    rw [hsa]
    cases refs with
    | nil => exact absurd rfl hne
    | cons r rs => rfl
  · intro uid manifest h1 h2 h3 h4
    unfold getNameFromUid
    rw [h1, h2, h3, h4]

/-- Witness for claim C8 at a concrete input: the entry under `ns:X`
references the unresolvable UID `type:Missing`, and rendering completes
with a link named by the UID fallback. -/
theorem witness_C8 :
    (addSeeAlso [] "ns:X"
        { entries := [("ns:X", { seeAlso := some ["type:Missing"] })] } {}
        (fun u => "/" ++ u) =
      [] ++ [Block.heading "See Also" 2,
        Block.text (mdxList (["type:Missing"].map
          (fun refUid => mdxLink (getNameFromUid refUid {}) ("/" ++ refUid))))]) ∧
    getNameFromUid "type:Missing" {} = uidFallbackName "type:Missing" := by
  constructor
  · exact claim_C8.1 [] "ns:X"
      { entries := [("ns:X", { seeAlso := some ["type:Missing"] })] } {}
      (fun u => "/" ++ u) { seeAlso := some ["type:Missing"] } ["type:Missing"]
      (by rfl) (by rfl) (by simp)
  · exact claim_C8.2 "type:Missing" {} (by rfl) (by rfl) (by rfl) (by rfl)

/-! ## Write-path lemmas for the file-structure generator (claim C2)

Every path the generator passes to the file system extends the directory
it was asked to write into; in particular the whole run only produces
paths rooted at the configured output directory. -/

theorem ext_shift {tp a b w : List String} (h : w = (tp ++ a) ++ b) :
    ∃ r, w = tp ++ r :=
  ⟨a ++ b, by rw [h, List.append_assoc]⟩

theorem generateConstructorWrites_ext (tp : GenPath) (cs : List MemberD) :
    ∀ w ∈ generateConstructorWrites tp cs, ∃ r, w = tp ++ r := by
  intro w hw
  unfold generateConstructorWrites at hw
  simp only [List.mem_cons] at hw
  rcases hw with rfl | hw
  · exact ⟨["Constructors"], rfl⟩
  · split at hw
    · simp only [List.mem_singleton] at hw
      exact ext_shift hw
    · simp only [List.mem_map, List.mem_range] at hw
      obtain ⟨i, _, rfl⟩ := hw
      exact ext_shift rfl

theorem generateMethodWrites_ext (tp : GenPath) (ms : List MemberD) :
    ∀ w ∈ generateMethodWrites tp ms, ∃ r, w = tp ++ r := by
  intro w hw
  unfold generateMethodWrites at hw
  simp only [List.mem_cons, List.mem_map] at hw
  rcases hw with rfl | ⟨p, _, rfl⟩
  · exact ⟨["Methods"], rfl⟩
  · exact ⟨["Methods", sanitizeFileName p.1 ++ ".mdx"], rfl⟩

theorem generatePerMemberWrites_ext (tp : GenPath) (dn : String)
    (ms : List MemberD) :
    ∀ w ∈ generatePerMemberWrites tp dn ms, ∃ r, w = tp ++ r := by
  intro w hw
  unfold generatePerMemberWrites at hw
  simp only [List.mem_cons, List.mem_map] at hw
  rcases hw with rfl | ⟨m, _, rfl⟩
  · exact ⟨[dn], rfl⟩
  · exact ⟨[dn, sanitizeFileName m.name ++ ".mdx"], rfl⟩

theorem generateStaticCtorWrite_ext (config : FSConfiguration) (t : TypeD)
    (tp : GenPath) (ws : List GenPath)
    (h : generateStaticCtorWrite config t tp = .ok ws) :
    ∀ w ∈ ws, ∃ r, w = tp ++ r := by
  unfold generateStaticCtorWrite at h
  split at h
  · cases h; simp
  · split at h
    · cases h; simp
    · split at h
      · exact absurd h (by simp)
      · cases h; simp
      · cases h
        intro w hw
        simp only [List.mem_singleton] at hw
        exact ⟨["static-constructor.mdx"], hw⟩

theorem generateTypeMembers_ext (config : FSConfiguration) (t : TypeD)
    (tp : GenPath) (ws : List GenPath)
    (h : generateTypeMembers config t tp = .ok ws) :
    ∀ w ∈ ws, ∃ r, w = tp ++ r := by
  unfold generateTypeMembers at h
  cases hms : t.members with
  | none =>
    rw [hms] at h
    cases h
    simp
  | some ms =>
    rw [hms] at h
    dsimp only at h
    cases hg : groupMembersByKind config.manifest {} ms with
    | error e => rw [hg] at h; exact absurd h (by simp)
    | ok g =>
      rw [hg] at h
      dsimp only at h
      cases hsc : generateStaticCtorWrite config t tp with
      | error e => rw [hsc] at h; exact absurd h (by simp)
      | ok scWrites =>
        rw [hsc] at h
        dsimp only at h
        cases h
        intro w hw
        simp only [List.mem_append] at hw
        rcases hw with ((((hw | hw) | hw) | hw) | hw) | hw
        · split at hw
          · exact generateConstructorWrites_ext tp g.constructors w hw
          · simp at hw
        · exact generateStaticCtorWrite_ext config t tp scWrites hsc w hw
        · split at hw
          · exact generateMethodWrites_ext tp g.methods w hw
          · simp at hw
        · split at hw
          · exact generatePerMemberWrites_ext tp "Properties" g.properties w hw
          · simp at hw
        · split at hw
          · exact generatePerMemberWrites_ext tp "Fields" g.fields w hw
          · simp at hw
        · split at hw
          · exact generatePerMemberWrites_ext tp "Events" g.events w hw
          · simp at hw

theorem generateType_ext (config : FSConfiguration) :
    ∀ fuel,
      (∀ t parentPath ws, generateType config fuel t parentPath = .ok ws →
        ∀ w ∈ ws, ∃ r, w = parentPath ++ r) ∧
      (∀ uids nestedPath ws, generateNestedTypes config fuel uids nestedPath = .ok ws →
        ∀ w ∈ ws, ∃ r, w = nestedPath ++ r) := by
  intro fuel
  induction fuel with
  | zero =>
    constructor
    · intro t parentPath ws h; exact absurd h (by simp [generateType])
    · intro uids nestedPath ws h; exact absurd h (by simp [generateNestedTypes])
  | succ f ih =>
    constructor
    · intro t parentPath ws h
      simp only [generateType] at h
      split at h
      · cases h
        intro w hw
        simp only [List.mem_singleton] at hw
        exact ⟨[sanitizeFileName t.name ++ ".mdx"], hw⟩
      · split at h
        · cases hms : t.members with
          | none =>
            rw [hms] at h
            cases h
            intro w hw
            simp only [List.mem_cons, List.mem_singleton, List.not_mem_nil, or_false] at hw
            rcases hw with rfl | rfl
            · exact ⟨[sanitizeFileName t.name], rfl⟩
            · exact ext_shift rfl
          | some ms =>
            cases ms with
            | nil =>
              rw [hms] at h
              cases h
              intro w hw
              simp only [List.mem_cons, List.mem_singleton, List.not_mem_nil, or_false] at hw
              rcases hw with rfl | rfl | rfl
              · exact ⟨[sanitizeFileName t.name], rfl⟩
              · exact ext_shift rfl
              · exact ext_shift rfl
            | cons m ms =>
              rw [hms] at h
              exact absurd h (by simp)
        · cases hmw : generateTypeMembers config t
              (parentPath ++ [sanitizeFileName t.name]) with
          | error e => rw [hmw] at h; exact absurd h (by simp)
          | ok mw =>
            rw [hmw] at h
            dsimp only at h
            have hmem : ∀ w ∈ mw, ∃ r, w = parentPath ++ r := by
              intro w hw
              obtain ⟨r, rfl⟩ :=
                generateTypeMembers_ext config t _ mw hmw w hw
              exact ext_shift rfl
            cases hnt : t.nestedTypes with
            | none =>
              rw [hnt] at h
              cases h
              intro w hw
              simp only [List.mem_append, List.mem_cons, List.mem_singleton, List.not_mem_nil, or_false] at hw
              rcases hw with (rfl | rfl) | hw
              · exact ⟨[sanitizeFileName t.name], rfl⟩
              · exact ext_shift rfl
              · exact hmem w hw
            | some nts =>
              cases nts with
              | nil =>
                rw [hnt] at h
                cases h
                intro w hw
                simp only [List.mem_append, List.mem_cons, List.mem_singleton, List.not_mem_nil, or_false] at hw
                rcases hw with (rfl | rfl) | hw
                · exact ⟨[sanitizeFileName t.name], rfl⟩
                · exact ext_shift rfl
                · exact hmem w hw
              | cons n nts =>
                rw [hnt] at h
                dsimp only at h
                cases hnw : generateNestedTypes config f (n :: nts)
                    (parentPath ++ [sanitizeFileName t.name] ++ ["Nested-Types"]) with
                | error e => rw [hnw] at h; exact absurd h (by simp)
                | ok nw =>
                  rw [hnw] at h
                  cases h
                  intro w hw
                  simp only [List.mem_append, List.mem_cons, List.mem_singleton, List.not_mem_nil, or_false] at hw
                  rcases hw with ((rfl | rfl) | hw) | rfl | hw
                  · exact ⟨[sanitizeFileName t.name], rfl⟩
                  · exact ext_shift rfl
                  · exact hmem w hw
                  · exact ext_shift rfl
                  · obtain ⟨r, rfl⟩ := (ih.2) _ _ nw hnw w hw
                    exact ext_shift (by rw [List.append_assoc])
    · intro uids nestedPath ws h
      match uids with
      | [] =>
        simp only [generateNestedTypes] at h
        cases h; simp
      | uid :: rest =>
        simp only [generateNestedTypes] at h
        cases hl : List.lookup uid config.manifest.types with
        | none =>
          rw [hl] at h
          exact ih.2 rest nestedPath ws h
        | some nt =>
          rw [hl] at h
          dsimp only at h
          cases hig : shouldIgnoreTypeAsManifest nt with
          | error e => rw [hig] at h; exact absurd h (by simp)
          | ok b =>
            rw [hig] at h
            cases b with
            | true => exact ih.2 rest nestedPath ws h
            | false =>
              dsimp only at h
              cases hw1 : generateType config f nt nestedPath with
              | error e => rw [hw1] at h; exact absurd h (by simp)
              | ok w1 =>
                rw [hw1] at h
                dsimp only at h
                cases hw2 : generateNestedTypes config f rest nestedPath with
                | error e => rw [hw2] at h; exact absurd h (by simp)
                | ok w2 =>
                  rw [hw2] at h
                  cases h
                  intro w hw
                  simp only [List.mem_append] at hw
                  rcases hw with hw | hw
                  · exact (ih.1) _ _ w1 hw1 w hw
                  · exact ih.2 rest nestedPath w2 hw2 w hw

theorem generateNamespaceTypes_ext (config : FSConfiguration) (fuel : Nat) :
    ∀ (uids : List String) (typesPath : GenPath) (ws : List GenPath),
      generateNamespaceTypes config fuel uids typesPath = .ok ws →
      ∀ w ∈ ws, ∃ r, w = typesPath ++ r := by
  intro uids
  induction uids with
  | nil => intro tp ws h; cases h; simp
  | cons uid rest ih =>
    intro tp ws h
    simp only [generateNamespaceTypes] at h
    cases hl : List.lookup uid config.manifest.types with
    | none => rw [hl] at h; exact ih tp ws h
    | some t =>
      rw [hl] at h
      dsimp only at h
      split at h
      · cases hw1 : generateType config fuel t tp with
        | error e => rw [hw1] at h; exact absurd h (by simp)
        | ok w1 =>
          rw [hw1] at h
          dsimp only at h
          cases hw2 : generateNamespaceTypes config fuel rest tp with
          | error e => rw [hw2] at h; exact absurd h (by simp)
          | ok w2 =>
            rw [hw2] at h
            cases h
            intro w hw
            simp only [List.mem_append] at hw
            rcases hw with hw | hw
            · exact (generateType_ext config fuel).1 t tp w1 hw1 w hw
            · exact ih tp w2 hw2 w hw
      · exact ih tp ws h

theorem generateNamespace_ext (config : FSConfiguration) :
    ∀ fuel,
      (∀ ns parentPath ws, generateNamespace config fuel ns parentPath = .ok ws →
        ∀ w ∈ ws, ∃ r, w = parentPath ++ r) ∧
      (∀ uids nsPath ws, generateChildNamespaces config fuel uids nsPath = .ok ws →
        ∀ w ∈ ws, ∃ r, w = nsPath ++ r) := by
  intro fuel
  induction fuel with
  | zero =>
    constructor
    · intro ns parentPath ws h; exact absurd h (by simp [generateNamespace])
    · intro uids nsPath ws h; exact absurd h (by simp [generateChildNamespaces])
  | succ f ih =>
    constructor
    · intro ns parentPath ws h
      simp only [generateNamespace] at h
      have hfin : ∀ (cw ws : List GenPath),
          (∀ w ∈ cw, ∃ r, w = parentPath ++ r) →
          (match
            (match ns.types with
             | none => (Except.ok [] : Except GenError (List GenPath))
             | some [] => Except.ok []
             | some ts =>
               match generateNamespaceTypes config f ts
                   (parentPath ++ [sanitizeFileName ns.name] ++ ["Types"]) with
               | .error e => (Except.error e : Except GenError (List GenPath))
               | .ok ws2 =>
                 Except.ok ((parentPath ++ [sanitizeFileName ns.name] ++ ["Types"]) :: ws2)) with
           | .error e => (Except.error e : Except GenError (List GenPath))
           | .ok tw =>
             Except.ok ([parentPath ++ [sanitizeFileName ns.name],
               parentPath ++ [sanitizeFileName ns.name] ++ ["index.mdx"]] ++ cw ++ tw)) =
            Except.ok ws →
          ∀ w ∈ ws, ∃ r, w = parentPath ++ r := by
        intro cw ws hcwP h
        cases ht : ns.types with
        | none =>
          rw [ht] at h
          cases h
          intro w hw
          simp only [List.mem_append, List.mem_cons, List.mem_singleton,
            List.not_mem_nil, or_false] at hw
          rcases hw with (rfl | rfl) | hw
          · exact ⟨[sanitizeFileName ns.name], rfl⟩
          · exact ext_shift rfl
          · exact hcwP w hw
        | some ts =>
          cases ts with
          | nil =>
            rw [ht] at h
            cases h
            intro w hw
            simp only [List.mem_append, List.mem_cons, List.mem_singleton,
              List.not_mem_nil, or_false] at hw
            rcases hw with (rfl | rfl) | hw
            · exact ⟨[sanitizeFileName ns.name], rfl⟩
            · exact ext_shift rfl
            · exact hcwP w hw
          | cons t0 ts0 =>
            rw [ht] at h
            dsimp only at h
            cases htw : generateNamespaceTypes config f (t0 :: ts0)
                (parentPath ++ [sanitizeFileName ns.name] ++ ["Types"]) with
            | error e => rw [htw] at h; exact absurd h (by simp)
            | ok tw =>
              rw [htw] at h
              cases h
              intro w hw
              simp only [List.mem_append, List.mem_cons, List.mem_singleton,
                List.not_mem_nil, or_false] at hw
              rcases hw with ((rfl | rfl) | hw) | rfl | hw
              · exact ⟨[sanitizeFileName ns.name], rfl⟩
              · exact ext_shift rfl
              · exact hcwP w hw
              · exact ext_shift rfl
              · obtain ⟨r, rfl⟩ :=
                  generateNamespaceTypes_ext config f (t0 :: ts0) _ tw htw w hw
                exact ⟨[sanitizeFileName ns.name] ++ (["Types"] ++ r), by
                  rw [List.append_assoc, List.append_assoc]⟩
      cases hc : ns.children with
      | none =>
        rw [hc] at h
        exact hfin [] ws (by simp) h
      | some cs =>
        cases cs with
        | nil =>
          rw [hc] at h
          exact hfin [] ws (by simp) h
        | cons c0 cs0 =>
          rw [hc] at h
          dsimp only at h
          cases hcw : generateChildNamespaces config f (c0 :: cs0)
              (parentPath ++ [sanitizeFileName ns.name] ++ ["Namespaces"]) with
          | error e => rw [hcw] at h; exact absurd h (by simp)
          | ok cws =>
            rw [hcw] at h
            dsimp only at h
            refine hfin _ ws ?_ h
            intro w hw
            simp only [List.mem_cons] at hw
            rcases hw with rfl | hw
            · exact ext_shift rfl
            · obtain ⟨r, rfl⟩ := ih.2 (c0 :: cs0) _ cws hcw w hw
              exact ⟨[sanitizeFileName ns.name] ++ (["Namespaces"] ++ r), by
                rw [List.append_assoc, List.append_assoc]⟩
    · intro uids nsPath ws h
      match uids with
      | [] =>
        simp only [generateChildNamespaces] at h
        cases h; simp
      | uid :: rest =>
        simp only [generateChildNamespaces] at h
        cases hl : List.lookup uid config.manifest.namespaces with
        | none => rw [hl] at h; exact ih.2 rest nsPath ws h
        | some child =>
          rw [hl] at h
          dsimp only at h
          cases hw1 : generateNamespace config f child nsPath with
          | error e => rw [hw1] at h; exact absurd h (by simp)
          | ok w1 =>
            rw [hw1] at h
            dsimp only at h
            cases hw2 : generateChildNamespaces config f rest nsPath with
            | error e => rw [hw2] at h; exact absurd h (by simp)
            | ok w2 =>
              rw [hw2] at h
              cases h
              intro w hw
              simp only [List.mem_append] at hw
              rcases hw with hw | hw
              · exact ih.1 child nsPath w1 hw1 w hw
              · exact ih.2 rest nsPath w2 hw2 w hw

theorem generateGlobalNamespace_ext (config : FSConfiguration) (fuel : Nat)
    (ns : NamespaceD) (ws : List GenPath)
    (h : generateGlobalNamespace config fuel ns = .ok ws) :
    ∀ w ∈ ws, ∃ r, w = [config.outputDir] ++ r := by
  unfold generateGlobalNamespace at h
  cases ht : ns.types with
  | none => rw [ht] at h; cases h; simp
  | some ts =>
    cases ts with
    | nil => rw [ht] at h; cases h; simp
    | cons t0 ts0 =>
      rw [ht] at h
      dsimp only at h
      cases htw : generateNamespaceTypes config fuel (t0 :: ts0)
          ([config.outputDir, "Global Namespace"] ++ ["Types"]) with
      | error e => rw [htw] at h; exact absurd h (by simp)
      | ok tw =>
        rw [htw] at h
        cases h
        intro w hw
        simp only [List.mem_append, List.mem_cons, List.mem_singleton,
          List.not_mem_nil, or_false] at hw
        rcases hw with (rfl | rfl | rfl) | hw
        · exact ⟨["Global Namespace"], rfl⟩
        · exact ⟨["Global Namespace", "index.mdx"], rfl⟩
        · exact ⟨["Global Namespace", "Types"], rfl⟩
        · obtain ⟨r, rfl⟩ :=
            generateNamespaceTypes_ext config fuel (t0 :: ts0) _ tw htw w hw
          exact ⟨["Global Namespace"] ++ (["Types"] ++ r), by
            rw [List.append_assoc]; rfl⟩

theorem generateTopLevel_ext (config : FSConfiguration) (fuel : Nat) :
    ∀ (entries : List (String × NamespaceD)) (ws : List GenPath),
      generateTopLevel config fuel entries = .ok ws →
      ∀ w ∈ ws, ∃ r, w = [config.outputDir] ++ r := by
  intro entries
  induction entries with
  | nil => intro ws h; cases h; simp
  | cons entry rest ih =>
    intro ws h
    obtain ⟨uid, ns⟩ := entry
    simp only [generateTopLevel] at h
    have hsplit : ∀ (here : Except GenError (List GenPath)),
        (here = .ok [] ∨
          ∀ w1, here = .ok w1 → ∀ w ∈ w1, ∃ r, w = [config.outputDir] ++ r) →
        (match here with
         | .error e => (.error e : Except GenError (List GenPath))
         | .ok w =>
           match generateTopLevel config fuel rest with
           | .error e => .error e
           | .ok ws2 => .ok (w ++ ws2)) = .ok ws →
        ∀ w ∈ ws, ∃ r, w = [config.outputDir] ++ r := by
      intro here hhere h
      cases here with
      | error e => exact absurd h (by simp)
      | ok w1 =>
        dsimp only at h
        cases hr : generateTopLevel config fuel rest with
        | error e => rw [hr] at h; exact absurd h (by simp)
        | ok ws2 =>
          rw [hr] at h
          cases h
          intro w hw
          simp only [List.mem_append] at hw
          rcases hw with hw | hw
          · rcases hhere with hnil | hext
            · cases hnil; simp at hw
            · exact hext w1 rfl w hw
          · exact ih ws2 hr w hw
    by_cases hg : (uid == "ns:<global>") = true
    · rw [if_pos hg] at h
      refine hsplit _ (Or.inr ?_) h
      intro w1 hw1 w hw
      exact generateGlobalNamespace_ext config fuel ns w1 hw1 w hw
    · rw [if_neg hg] at h
      by_cases hp : (ns.parent == some "ns:<global>") = true
      · rw [if_pos hp] at h
        refine hsplit _ (Or.inr ?_) h
        intro w1 hw1 w hw
        exact (generateNamespace_ext config fuel).1 ns [config.outputDir] w1 hw1 w hw
      · rw [if_neg hp] at h
        exact hsplit _ (Or.inl rfl) h

theorem generate_ext (config : FSConfiguration) (fuel : Nat) (ws : List GenPath)
    (h : generate config fuel = .ok ws) :
    ∀ w ∈ ws, ∃ r, w = config.outputDir :: r := by
  unfold generate at h
  cases htl : generateTopLevel config fuel config.manifest.namespaces with
  | error e => rw [htl] at h; exact absurd h (by simp)
  | ok ws2 =>
    rw [htl] at h
    cases h
    intro w hw
    simp only [List.mem_cons] at hw
    rcases hw with rfl | hw
    · exact ⟨[], rfl⟩
    · obtain ⟨r, hr⟩ := generateTopLevel_ext config fuel _ ws2 htl w hw
      exact ⟨r, hr⟩

/-! ## Skeleton-policy lemmas (claim C2) -/

theorem firstSeenDedupGo_count_zero (u : String) :
    ∀ (l seen : List String), u ∈ seen →
      List.count u (firstSeenDedupGo seen l) = 0 := by
  intro l
  induction l with
  | nil => intro seen hu; simp [firstSeenDedupGo]
  | cons x xs ih =>
    intro seen hu
    simp only [firstSeenDedupGo]
    split
    · exact ih seen hu
    · next hx =>
      have hne : ¬ u = x := fun hh => hx (hh ▸ hu)
      have hne2 : ¬ x = u := fun hh => hne hh.symm
      rw [List.count_cons]
      have := ih (seen ++ [x]) (List.mem_append_left _ hu)
      simp [this, hne, hne2]

theorem firstSeenDedupGo_count_one (u : String) :
    ∀ (l seen : List String), u ∉ seen → u ∈ l →
      List.count u (firstSeenDedupGo seen l) = 1 := by
  intro l
  induction l with
  | nil => intro seen hu hl; simp at hl
  | cons x xs ih =>
    intro seen hu hl
    simp only [firstSeenDedupGo]
    by_cases hx : x ∈ seen
    · rw [if_pos hx]
      rcases List.mem_cons.mp hl with rfl | hl2
      · exact absurd hx hu
      · exact ih seen hu hl2
    · rw [if_neg hx]
      by_cases hux : u = x
      · subst hux
        rw [List.count_cons]
        have h0 := firstSeenDedupGo_count_zero u xs (seen ++ [u])
          (List.mem_append_right _ (by simp))
        simp [h0]
      · have hl2 : u ∈ xs := by
          rcases List.mem_cons.mp hl with rfl | hl2
          · exact absurd rfl hux
          · exact hl2
        rw [List.count_cons]
        have hnotin : u ∉ seen ++ [x] := by
          intro hmem
          rcases List.mem_append.mp hmem with hmem | hmem
          · exact hu hmem
          · exact hux (List.mem_singleton.mp hmem)
        have hxu : ¬ x = u := fun hh => hux hh.symm
        simp [ih (seen ++ [x]) hnotin hl2, hux, hxu]

/-- Claim C2 — No write of the file-structure generator ever lands in the
sidecar subtree (every written path is rooted at the configured output
directory, so when the sidecar root differs from the output root no write
starts with it), and the sidecar skeleton writer emits exactly one
skeleton for every addressable UID lacking a sidecar while never touching
an existing sidecar. -/
theorem claim_C2 :
    (∀ (config : FSConfiguration) (fuel : Nat) (ws : List GenPath),
      generate config fuel = .ok ws →
      config.sidecarsOutputDir ≠ config.outputDir →
      ∀ w ∈ ws, ¬ ∃ rest, w = config.sidecarsOutputDir :: rest) ∧
    (∀ existing addressable : List String,
      (∀ u ∈ existing, u ∉ sidecarSkeletonWrites existing addressable) ∧
      (∀ u ∈ addressable, u ∉ existing →
        List.count u (sidecarSkeletonWrites existing addressable) = 1)) := by
  constructor
  · intro config fuel ws h hne w hw hcon
    obtain ⟨rest, rfl⟩ := hcon
    obtain ⟨r, hr⟩ := generate_ext config fuel ws h _ hw
    exact hne (by injection hr with h1 h2)
  · intro existing addressable
    constructor
    · intro u hu
      exact List.count_eq_zero.mp
        (firstSeenDedupGo_count_zero u addressable existing hu)
    · intro u hu hnot
      exact firstSeenDedupGo_count_one u addressable existing hnot hu

/-- Witness for claim C2 at a concrete configuration and run. -/
theorem witness_C2 :
    (¬ ∃ rest, (["docs", "Foo"] : GenPath) = "sidecars" :: rest) ∧
    "a" ∉ sidecarSkeletonWrites ["a"] ["a", "b"] ∧
    List.count "b" (sidecarSkeletonWrites ["a"] ["a", "b"]) = 1 := by
  refine ⟨?_, ?_, ?_⟩
  · exact claim_C2.1
      { outputDir := "docs", sidecarsOutputDir := "sidecars",
        manifest :=
          { namespaces :=
              [("ns:Foo", { uid := "ns:Foo", name := "Foo",
                            parent := some "ns:<global>" })] } }
      5
      [["docs"], ["docs", "Foo"], ["docs", "Foo", "index.mdx"]]
      (by rfl) (by decide) ["docs", "Foo"] (by simp)
  · exact (claim_C2.2 ["a"] ["a", "b"]).1 "a" (by simp)
  · exact (claim_C2.2 ["a"] ["a", "b"]).2 "b" (by simp) (by simp)

/-! ## Ignore-predicate claims (C6) -/

/-- A configuration whose manifest holds a root namespace `Foo` with a
class `P` carrying a nested class `N`; `N` has attribute `attr:1` of kind
`type:Ban`, and `type:Ban` is in the configured ignore list. -/
def ignoreBugConfig : FSConfiguration :=
  { ignoreAttributes := [("type:Ban", true)],
    outputDir := "docs", sidecarsOutputDir := "sidecars",
    manifest :=
      { namespaces :=
          [("ns:Foo", { uid := "ns:Foo", name := "Foo",
                        parent := some "ns:<global>", types := some ["type:P"] })],
        types :=
          [("type:P", { uid := "type:P", name := "P", typekind := "class",
                        nestedTypes := some ["type:N"] }),
           ("type:N", { uid := "type:N", name := "N", typekind := "class",
                        attributes := some ["attr:1"] })],
        attributes := [("attr:1", { attributeType := "type:Ban" })] } }

/-- The same configuration with `N` flagged compiler-generated instead of
attributed. -/
def ignoreCgConfig : FSConfiguration :=
  { ignoreAttributes := [("type:Ban", true)],
    outputDir := "docs", sidecarsOutputDir := "sidecars",
    manifest :=
      { namespaces :=
          [("ns:Foo", { uid := "ns:Foo", name := "Foo",
                        parent := some "ns:<global>", types := some ["type:P"] })],
        types :=
          [("type:P", { uid := "type:P", name := "P", typekind := "class",
                        nestedTypes := some ["type:N"] }),
           ("type:N", { uid := "type:N", name := "N", typekind := "class",
                        isCompilerGenerated := true })] } }

/-- Claim C6 — evaluating the code at the failing input: the nested type
`N` carries an attribute whose kind is in the configured ignore list, and
the correctly-typed predicate says to ignore it; but because
`generateNestedTypes` passes `this.manifest` where an `FSConfiguration` is
expected, the run throws a `TypeError` instead of skipping `N`.  A
compiler-generated nested type is still skipped (no node anywhere), since
that check precedes the broken attribute access. -/
theorem claim_C6 :
    shouldIgnoreType
      { uid := "type:N", name := "N", typekind := "class",
        attributes := some ["attr:1"] } ignoreBugConfig = true ∧
    generate ignoreBugConfig 10 = .error .typeError ∧
    generate ignoreCgConfig 10 =
      .ok [["docs"], ["docs", "Foo"], ["docs", "Foo", "index.mdx"],
           ["docs", "Foo", "Types"], ["docs", "Foo", "Types", "P"],
           ["docs", "Foo", "Types", "P", "index.mdx"],
           ["docs", "Foo", "Types", "P", "Nested-Types"]] ∧
    ([["docs"], ["docs", "Foo"], ["docs", "Foo", "index.mdx"],
      ["docs", "Foo", "Types"], ["docs", "Foo", "Types", "P"],
      ["docs", "Foo", "Types", "P", "index.mdx"],
      ["docs", "Foo", "Types", "P", "Nested-Types"]].all
        (fun w => ! w.contains "N")) = true := by
  refine ⟨rfl, rfl, rfl, by decide⟩

/-! ## Global-namespace claims (C7) -/

/-- A configuration whose global namespace lists exactly one type, and
that type is nested (it has an enclosing type). -/
def globalNestedConfig : FSConfiguration :=
  { outputDir := "docs", sidecarsOutputDir := "sidecars",
    manifest :=
      { namespaces :=
          [("ns:<global>", { uid := "ns:<global>", name := "<global>",
                             types := some ["type:Inner"] })],
        types :=
          [("type:Inner", { uid := "type:Inner", name := "Inner",
                            typekind := "class",
                            enclosingType := some "type:Out" })] } }

/-- Counterexample to claim C7 — the global namespace of
`globalNestedConfig` owns no non-nested type (its only listed type has an
enclosing type), yet the run still creates the `Global Namespace` folder
and its index file, because the guard only checks that the types list is
non-empty. -/
theorem counterexample_C7 :
    generate globalNestedConfig 10 =
      .ok [["docs"], ["docs", "Global Namespace"],
           ["docs", "Global Namespace", "index.mdx"],
           ["docs", "Global Namespace", "Types"]] ∧
    (["type:Inner"].all (fun u =>
      match List.lookup u globalNestedConfig.manifest.types with
      | some t => ! (t.enclosingType == none)
      | none => false)) = true := by
  exact ⟨rfl, by decide⟩

/-- Claim C7 as amended — the implicit global namespace becomes a folder
if and only if its types list is non-empty; whether those types are
nested or excluded by the ignore policy has no effect on folder
creation. -/
theorem claim_C7 :
    ∀ (config : FSConfiguration) (fuel : Nat) (g : NamespaceD) (ws : List GenPath),
      config.manifest.namespaces = [("ns:<global>", g)] →
      generate config fuel = .ok ws →
      (([config.outputDir, "Global Namespace"] ∈ ws) ↔ g.types.getD [] ≠ []) := by
  intro config fuel g ws hns h
  unfold generate generateTopLevel at h
  rw [hns] at h
  dsimp only at h
  rw [if_pos (by rfl)] at h
  cases hglob : generateGlobalNamespace config fuel g with
  | error e => rw [hglob] at h; exact absurd h (by simp)
  | ok w1 =>
    rw [hglob] at h
    dsimp only at h
    cases h
    unfold generateGlobalNamespace at hglob
    cases ht : g.types with
    | none =>
      rw [ht] at hglob
      cases hglob
      simp [ht]
    | some ts =>
      cases ts with
      | nil =>
        rw [ht] at hglob
        cases hglob
        simp [ht]
      | cons t0 ts0 =>
        rw [ht] at hglob
        dsimp only at hglob
        cases htw : generateNamespaceTypes config fuel (t0 :: ts0)
            ([config.outputDir, "Global Namespace"] ++ ["Types"]) with
        | error e => rw [htw] at hglob; exact absurd hglob (by simp)
        | ok tw =>
          rw [htw] at hglob
          cases hglob
          simp [ht]

/-- Witness for claim C7: at the concrete configuration whose global
namespace lists one (nested) type, the folder is created. -/
theorem witness_C7 :
    (["docs", "Global Namespace"] : GenPath) ∈
      [["docs"], ["docs", "Global Namespace"],
       ["docs", "Global Namespace", "index.mdx"],
       ["docs", "Global Namespace", "Types"]] := by
  refine (claim_C7 globalNestedConfig 10
    { uid := "ns:<global>", name := "<global>", types := some ["type:Inner"] }
    [["docs"], ["docs", "Global Namespace"],
     ["docs", "Global Namespace", "index.mdx"],
     ["docs", "Global Namespace", "Types"]]
    (by rfl) (by rfl)).mpr (by decide)

/-! ## Cycle-guard claims (C9) -/

/-- A manifest with a namespace child cycle: `ns:A` lists itself among its
children. -/
def cyclicConfig : FSConfiguration :=
  { outputDir := "docs", sidecarsOutputDir := "sidecars",
    manifest :=
      { namespaces :=
          [("ns:A", { uid := "ns:A", name := "A", parent := some "ns:<global>",
                      children := some ["ns:A"] })] } }

/-- The cyclic namespace entity of `cyclicConfig`. -/
def cyclicNs : NamespaceD :=
  { uid := "ns:A", name := "A", parent := some "ns:<global>",
    children := some ["ns:A"] }

/-- A run on this configuration never completes within any finite
recursion budget. -/
def generationDiverges (config : FSConfiguration) : Prop :=
  ∀ fuel, generate config fuel = .error .fuelOut

theorem cyclicNamespace_fuelOut :
    ∀ fuel path, generateNamespace cyclicConfig fuel cyclicNs path = .error .fuelOut := by
  intro fuel
  induction fuel using Nat.strong_induction_on with
  | _ fuel ih =>
    match fuel with
    | 0 => intro path; rfl
    | 1 => intro path; rfl
    | (g + 2) =>
      intro path
      have hrec := ih g (by omega) (path ++ [sanitizeFileName cyclicNs.name] ++ ["Namespaces"])
      simp only [generateNamespace, generateChildNamespaces, cyclicConfig, cyclicNs,
        List.lookup, beq_self_eq_true] at hrec ⊢
      rw [hrec]

/-- An acyclic two-namespace manifest: root `R` with child `C`. -/
def acyclicConfig : FSConfiguration :=
  { outputDir := "docs", sidecarsOutputDir := "sidecars",
    manifest :=
      { namespaces :=
          [("ns:R", { uid := "ns:R", name := "R", parent := some "ns:<global>",
                      children := some ["ns:R.C"] }),
           ("ns:R.C", { uid := "ns:R.C", name := "C", parent := some "ns:R" })] } }

/-- Counterexample to claim C9 — the namespace traversal has no cycle
guard: on the cyclic manifest the recursion exceeds every finite depth
budget instead of failing only the affected branch. -/
theorem counterexample_C9 : generationDiverges cyclicConfig := by
  intro fuel
  have h := cyclicNamespace_fuelOut fuel ["docs"]
  simp only [cyclicConfig, cyclicNs] at h
  simp [generate, generateTopLevel, cyclicConfig, h]

/-- Claim C9 as amended — the namespace traversal contains no cycle
guard: generation on a metadata graph with a namespace child cycle never
terminates (it fails with exhausted fuel for every budget), while on an
acyclic graph the same traversal completes normally. -/
theorem claim_C9 :
    generationDiverges cyclicConfig ∧
    generate acyclicConfig 10 =
      .ok [["docs"], ["docs", "R"], ["docs", "R", "index.mdx"],
           ["docs", "R", "Namespaces"], ["docs", "R", "Namespaces", "C"],
           ["docs", "R", "Namespaces", "C", "index.mdx"]] := by
  constructor
  · intro fuel
    have h := cyclicNamespace_fuelOut fuel ["docs"]
    simp only [cyclicConfig, cyclicNs] at h
    simp [generate, generateTopLevel, cyclicConfig, h]
  · rfl

/-! ## Section-ordering lemmas (claim C5)

The comparator of `getSectionsInOrder` is a total preorder; the stable
insertion model therefore has the properties the specification states:
hinted sections first in ascending hint order, unhinted sections after
them in declaration order, equal hints stable, "See Also" excluded. -/

theorem hintLe_total (a b : SidecarSection) :
    hintLe a b = true ∨ hintLe b a = true := by
  unfold hintLe
  obtain ⟨ah, ac, ao⟩ := a
  obtain ⟨bh, bc, bo⟩ := b
  cases ao <;> cases bo <;> simp <;> omega

theorem hintLe_trans {a b c : SidecarSection} (h1 : hintLe a b = true)
    (h2 : hintLe b c = true) : hintLe a c = true := by
  unfold hintLe at h1 h2 ⊢
  obtain ⟨ah, ac, ao⟩ := a
  obtain ⟨bh, bc, bo⟩ := b
  obtain ⟨ch, cc, co⟩ := c
  cases ao <;> cases bo <;> cases co <;> simp_all <;> omega

theorem mem_insertOrdered {a x : SidecarSection} :
    ∀ l, a ∈ insertOrdered x l ↔ a = x ∨ a ∈ l := by
  intro l
  induction l with
  | nil => simp [insertOrdered]
  | cons y ys ih =>
    simp only [insertOrdered]
    split
    · rw [List.mem_cons, ih, List.mem_cons]
      tauto
    · simp only [List.mem_cons]

theorem mem_sortSections {a : SidecarSection} :
    ∀ l, a ∈ sortSections l ↔ a ∈ l := by
  intro l
  induction l with
  | nil => simp [sortSections]
  | cons x xs ih => simp [sortSections, mem_insertOrdered, ih]

theorem pairwise_insertOrdered {x : SidecarSection} :
    ∀ l, l.Pairwise (fun a b => hintLe a b = true) →
      (insertOrdered x l).Pairwise (fun a b => hintLe a b = true) := by
  intro l
  induction l with
  | nil => intro _; simp [insertOrdered]
  | cons y ys ih =>
    intro h
    rw [List.pairwise_cons] at h
    obtain ⟨hy, hys⟩ := h
    simp only [insertOrdered]
    split
    · next hlt =>
      rw [List.pairwise_cons]
      refine ⟨?_, ih hys⟩
      intro z hz
      rcases (mem_insertOrdered _).mp hz with rfl | hz
      · unfold hintLt at hlt
        exact (Bool.and_eq_true _ _).mp hlt |>.1
      · exact hy z hz
    · next hlt =>
      have hxy : hintLe x y = true := by
        by_cases hxy : hintLe x y = true
        · exact hxy
        · exfalso
          apply hlt
          unfold hintLt
          rcases hintLe_total x y with hh | hh
          · exact absurd hh hxy
          · rw [Bool.not_eq_true] at hxy
            simp [hh, hxy]
      rw [List.pairwise_cons]
      constructor
      · intro z hz
        rcases List.mem_cons.mp hz with rfl | hz
        · exact hxy
        · exact hintLe_trans hxy (hy z hz)
      · exact List.pairwise_cons.mpr ⟨hy, hys⟩

theorem sortSections_pairwise :
    ∀ l, (sortSections l).Pairwise (fun a b => hintLe a b = true) := by
  intro l
  induction l with
  | nil => simp [sortSections]
  | cons x xs ih => exact pairwise_insertOrdered _ ih

theorem insertOrdered_append_right {x : SidecarSection} {U : List SidecarSection}
    (hU : ∀ u ∈ U, hintLt u x = false) :
    ∀ A, insertOrdered x (A ++ U) = insertOrdered x A ++ U := by
  intro A
  induction A with
  | nil =>
    cases U with
    | nil => rfl
    | cons u us =>
      have := hU u (by simp)
      simp [insertOrdered, this]
  | cons a A ih =>
    by_cases hax : hintLt a x = true
    · simp [insertOrdered, hax, ih]
    · simp [insertOrdered, hax]

theorem insertOrdered_append_left {x : SidecarSection} {U : List SidecarSection} :
    ∀ A, (∀ a ∈ A, hintLt a x = true) →
      insertOrdered x (A ++ U) = A ++ insertOrdered x U := by
  intro A
  induction A with
  | nil => intro _; rfl
  | cons a A ih =>
    intro hA
    have ha := hA a (by simp)
    simp only [List.cons_append, insertOrdered, List.append_eq]
    rw [if_pos ha, ih (fun b hb => hA b (List.mem_cons_of_mem _ hb))]

theorem hintLt_of_kinds {u x : SidecarSection} :
    u.order.isSome = false → x.order.isSome = true → hintLt u x = false := by
  intro hu hx
  unfold hintLt hintLe
  cases hu2 : u.order with
  | some v => rw [hu2] at hu; simp at hu
  | none =>
    cases hx2 : x.order with
    | none => rw [hx2] at hx; simp at hx
    | some v => simp

theorem hintLt_of_hinted_unhinted {a x : SidecarSection} :
    a.order.isSome = true → x.order.isSome = false → hintLt a x = true := by
  intro ha hx
  unfold hintLt hintLe
  cases ha2 : a.order with
  | none => rw [ha2] at ha; simp at ha
  | some v =>
    cases hx2 : x.order with
    | some w => rw [hx2] at hx; simp at hx
    | none => simp

theorem hintLt_of_both_unhinted {u x : SidecarSection} :
    u.order.isSome = false → x.order.isSome = false → hintLt u x = false := by
  intro hu hx
  unfold hintLt hintLe
  cases hu2 : u.order with
  | some v => rw [hu2] at hu; simp at hu
  | none =>
    cases hx2 : x.order with
    | some w => rw [hx2] at hx; simp at hx
    | none => simp

theorem sortSections_split :
    ∀ l, sortSections l =
      sortSections (l.filter (fun s => s.order.isSome)) ++
        l.filter (fun s => ! s.order.isSome) := by
  intro l
  induction l with
  | nil => rfl
  | cons x xs ih =>
    by_cases hx : x.order.isSome = true
    · have hU : ∀ u ∈ xs.filter (fun s => ! s.order.isSome), hintLt u x = false := by
        intro u hu
        have := List.of_mem_filter hu
        simp only [Bool.not_eq_true'] at this
        exact hintLt_of_kinds this hx
      rw [List.filter_cons, List.filter_cons, if_pos hx, if_neg (by simp [hx])]
      rw [sortSections, sortSections, ih, insertOrdered_append_right hU]
    · rw [Bool.not_eq_true] at hx
      have hA : ∀ a ∈ sortSections (xs.filter (fun s => s.order.isSome)),
          hintLt a x = true := by
        intro a ha
        have := List.of_mem_filter ((mem_sortSections _).mp ha)
        exact hintLt_of_hinted_unhinted this hx
      have hins : insertOrdered x (xs.filter (fun s => ! s.order.isSome)) =
          x :: xs.filter (fun s => ! s.order.isSome) := by
        cases hf : xs.filter (fun s => ! s.order.isSome) with
        | nil => rfl
        | cons u us =>
          have hu : u ∈ xs.filter (fun s => ! s.order.isSome) := by rw [hf]; simp
          have := List.of_mem_filter hu
          simp only [Bool.not_eq_true'] at this
          simp [insertOrdered, hintLt_of_both_unhinted this hx]
      rw [List.filter_cons, List.filter_cons, if_neg (by simp [hx]),
        if_pos (by simp [hx])]
      rw [sortSections, ih, insertOrdered_append_left _ hA, hins]

theorem filter_insertOrdered_pos (p : SidecarSection → Bool) {x : SidecarSection}
    (hpx : p x = true) (hp : ∀ a, p a = true → hintLt a x = false) :
    ∀ A, (insertOrdered x A).filter p = x :: A.filter p := by
  intro A
  induction A with
  | nil => simp [insertOrdered, hpx]
  | cons a A ih =>
    by_cases hax : hintLt a x = true
    · have hpa : p a = false := by
        cases hpa : p a with
        | false => rfl
        | true => exact absurd hax (by simp [hp a hpa])
      simp [insertOrdered, hax, List.filter_cons, hpa, ih]
    · simp [insertOrdered, hax, List.filter_cons, hpx]

theorem filter_insertOrdered_neg (p : SidecarSection → Bool) {x : SidecarSection}
    (hpx : p x = false) :
    ∀ A, (insertOrdered x A).filter p = A.filter p := by
  intro A
  induction A with
  | nil => simp [insertOrdered, hpx]
  | cons a A ih =>
    by_cases hax : hintLt a x = true
    · simp [insertOrdered, hax, List.filter_cons, ih]
    · simp [insertOrdered, hax, List.filter_cons, hpx]

theorem sortSections_filter (p : SidecarSection → Bool)
    (hp : ∀ a b, p a = true → p b = true → hintLt a b = false) :
    ∀ l, (sortSections l).filter p = l.filter p := by
  intro l
  induction l with
  | nil => rfl
  | cons x xs ih =>
    by_cases hpx : p x = true
    · rw [sortSections, filter_insertOrdered_pos p hpx (fun a hpa => hp a x hpa hpx), ih]
      simp [List.filter_cons, hpx]
    · rw [Bool.not_eq_true] at hpx
      rw [sortSections, filter_insertOrdered_neg p hpx, ih]
      simp [List.filter_cons, hpx]

theorem getSectionsInOrder_eq (e : SidecarEntry) :
    getSectionsInOrder e =
      sortSections ((e.sections.getD []).filter
        (fun s => ! (s.heading == seeAlsoHeading))) := by
  unfold getSectionsInOrder
  cases e.sections <;> rfl

/-- Claim C5 — sections resolve into render order with hinted sections
first in ascending hint order, unhinted sections after all hinted ones in
declaration order, sections of equal hint keeping declaration order, the
reserved "See Also" heading excluded from the ordering; and in the built
namespace page the blocks of `addSections` are followed by the "See Also"
blocks as the final segment, so the see-also material is always rendered
last. -/
theorem claim_C5 :
    (∀ e : SidecarEntry,
      (∀ s ∈ getSectionsInOrder e, ¬ s.heading = seeAlsoHeading) ∧
      getSectionsInOrder e =
        (getSectionsInOrder e).filter (fun s => s.order.isSome) ++
          (getSectionsInOrder e).filter (fun s => ! s.order.isSome) ∧
      (getSectionsInOrder e).Pairwise
        (fun a b => ∀ x y, a.order = some x → b.order = some y → x ≤ y) ∧
      (∀ h : Int,
        (getSectionsInOrder e).filter (fun s => decide (s.order = some h)) =
          ((e.sections.getD []).filter
            (fun s => ! (s.heading == seeAlsoHeading))).filter
            (fun s => decide (s.order = some h))) ∧
      (getSectionsInOrder e).filter (fun s => ! s.order.isSome) =
        ((e.sections.getD []).filter
          (fun s => ! (s.heading == seeAlsoHeading))).filter
          (fun s => ! s.order.isSome)) ∧
    (∀ (config : FSConfiguration) (ns : NamespaceD)
        (sidecars : SidecarCollection) (slugFn : String → String)
        (bs : List Block),
      createNamespaceMDX config ns sidecars slugFn = .ok bs →
      ∃ pre, bs = pre ++ sectionBlocks ns.uid sidecars ++
        seeAlsoBlocks ns.uid sidecars config.manifest slugFn) := by
  constructor
  · intro e
    rw [getSectionsInOrder_eq]
    refine ⟨?_, ?_, ?_, ?_, ?_⟩
    · intro s hs
      have := List.of_mem_filter ((mem_sortSections _).mp hs)
      simpa using this
    · rw [sortSections_split ((e.sections.getD []).filter
        (fun s => ! (s.heading == seeAlsoHeading)))]
      rw [List.filter_append, List.filter_append]
      have h1 : (sortSections ((((e.sections.getD []).filter
          (fun s => ! (s.heading == seeAlsoHeading)))).filter
            (fun s => s.order.isSome))).filter (fun s => s.order.isSome) =
          sortSections ((((e.sections.getD []).filter
            (fun s => ! (s.heading == seeAlsoHeading)))).filter
              (fun s => s.order.isSome)) := by
        rw [List.filter_eq_self]
        intro a ha
        exact List.of_mem_filter (p := fun s => s.order.isSome)
          ((mem_sortSections _).mp ha)
      have h2 : ((((e.sections.getD []).filter
          (fun s => ! (s.heading == seeAlsoHeading)))).filter
            (fun s => ! s.order.isSome)).filter (fun s => s.order.isSome) = [] := by
        rw [List.filter_eq_nil_iff]
        intro a ha
        have := List.of_mem_filter ha
        simp only [Bool.not_eq_true'] at this
        simp [this]
      have h3 : (sortSections ((((e.sections.getD []).filter
          (fun s => ! (s.heading == seeAlsoHeading)))).filter
            (fun s => s.order.isSome))).filter (fun s => ! s.order.isSome) = [] := by
        rw [List.filter_eq_nil_iff]
        intro a ha
        have := List.of_mem_filter ((mem_sortSections _).mp ha)
        simp [this]
      have h4 : ((((e.sections.getD []).filter
          (fun s => ! (s.heading == seeAlsoHeading)))).filter
            (fun s => ! s.order.isSome)).filter (fun s => ! s.order.isSome) =
          (((e.sections.getD []).filter
            (fun s => ! (s.heading == seeAlsoHeading)))).filter
              (fun s => ! s.order.isSome) := by
        rw [List.filter_eq_self]
        intro a ha
        exact List.of_mem_filter (p := fun s : SidecarSection => ! s.order.isSome) ha
      rw [h1, h2, h3, h4, List.append_nil, List.nil_append]
    · refine List.Pairwise.imp ?_ (sortSections_pairwise _)
      intro a b hab x y hax hby
      unfold hintLe at hab
      rw [hax, hby] at hab
      simpa using hab
    · intro h
      refine sortSections_filter _ ?_ _
      intro a b hpa hpb
      have ha : a.order = some h := of_decide_eq_true hpa
      have hb : b.order = some h := of_decide_eq_true hpb
      unfold hintLt hintLe
      rw [ha, hb]
      simp
    · refine sortSections_filter _ ?_ _
      intro a b hpa hpb
      simp only [Bool.not_eq_true'] at hpa hpb
      exact hintLt_of_both_unhinted hpa hpb
  · intro config ns sidecars slugFn bs h
    unfold createNamespaceMDX at h
    cases hl : List.lookup ns.uid config.manifest.namespaces with
    | none => rw [hl] at h; exact absurd h (by simp)
    | some nsEntry =>
      rw [hl] at h
      cases h
      exact ⟨_, rfl⟩

/-- Witness for claim C5 at a concrete namespace page build. -/
theorem witness_C5 :
    ∃ pre,
      ([Block.frontMatter "title" "W Namespace",
        Block.frontMatter "description" "Documentation for the W namespace.",
        Block.frontMatter "slug" "ns:W",
        Block.frontMatter "sidebar_label" "W",
        Block.heading "Types" 2,
        Block.text "This namespace does not contain any types."] : List Block) =
      pre ++ sectionBlocks "ns:W" {} ++
        seeAlsoBlocks "ns:W" {}
          ({ namespaces := [("ns:W", { uid := "ns:W", name := "W" })] }) (fun u => u) := by
  exact claim_C5.2
    { outputDir := "docs", sidecarsOutputDir := "sidecars",
      manifest := { namespaces := [("ns:W", { uid := "ns:W", name := "W" })] } }
    { uid := "ns:W", name := "W" } {} (fun u => u) _ (by rfl)

end Sfs
